import Mathlib

/-!
Shallow embedding of the concurrent task-execution core of the
`avito_zamer_complex` worker fleet, translated from
`src/container/worker/database.py`, `src/container/worker/main.py`,
`src/container/worker/validation/mechanical.py` and
`src/container/worker/validation/ai.py`.

The relational store is modelled as Lean lists of row structures; every
single-statement SQL operation becomes a pure function on those lists.
Timestamps (`NOW()`) are passed in explicitly as natural numbers.  Python
floats are modelled as rationals.  Python strings are modelled as `List Char`
where character-level operations (lowercasing, substring search) matter, and
as `String` elsewhere.
-/

namespace AvitoZamer

/-- Task status enumeration: `'новая'`, `'в работе'`, `'завершена'`, `'ошибка'`. -/
inductive TaskStatus
  | new
  | inProgress
  | done
  | error
deriving DecidableEq, Repr

/-- One row of the `tasks` table. -/
structure Task where
  id : Nat
  article : String
  status : TaskStatus
  worker_id : Option String
  taken_at : Option Nat
  last_heartbeat : Option Nat
  completed_at : Option Nat
  retry_count : Nat
  error_message : Option String
  created_at : Nat
deriving DecidableEq, Repr

/-- Proxy status enumeration: `'свободен'`, `'используется'`, `'заблокирован'`. -/
inductive ProxyStatus
  | free
  | inUse
  | blocked
deriving DecidableEq, Repr

/-- One row of the `proxies` table. -/
structure Proxy where
  id : Nat
  proxy_address : String
  status : ProxyStatus
  worker_id : Option String
  taken_at : Option Nat
  blocked_at : Option Nat
  blocked_reason : Option String
deriving DecidableEq, Repr

/-- Row update applied by `take_next_task`'s UPDATE clause:
`status = 'в работе', worker_id = $1, taken_at = NOW(), last_heartbeat = NOW()`. -/
def leaseTaskUpdate (w : String) (now : Nat) (t : Task) : Task :=
  { t with status := .inProgress, worker_id := some w,
           taken_at := some now, last_heartbeat := some now }

/-- The inner `SELECT id FROM tasks WHERE status = 'новая' ORDER BY created_at
ASC LIMIT 1` of `take_next_task`: the first NEW task with minimal
`created_at`. -/
def select_next_new (tasks : List Task) : Option Task :=
  (tasks.filter (fun t => decide (t.status = TaskStatus.new))).argmin Task.created_at

/-- `database.take_next_task`: atomically lease the next NEW task, returning
`(task_id, article)` and the updated table; `none` when the queue is empty. -/
def take_next_task (tasks : List Task) (w : String) (now : Nat) :
    Option (Nat × String) × List Task :=
  match select_next_new tasks with
  | none => (none, tasks)
  | some t =>
      (some (t.id, t.article),
       tasks.map (fun u => if u.id = t.id then leaseTaskUpdate w now u else u))

/-- Row update applied by `take_free_proxy`'s UPDATE clause:
`status = 'используется', worker_id = $1, taken_at = NOW()`. -/
def leaseProxyUpdate (w : String) (now : Nat) (p : Proxy) : Proxy :=
  { p with status := .inUse, worker_id := some w, taken_at := some now }

/-- The inner `SELECT id FROM proxies WHERE status = 'свободен' ORDER BY
RANDOM() LIMIT 1` of `take_free_proxy`.  The random draw is modelled by an
arbitrary seed `k` selecting among the FREE rows. -/
def select_free_proxy (proxies : List Proxy) (k : Nat) : Option Proxy :=
  let fr := proxies.filter (fun p => decide (p.status = ProxyStatus.free))
  fr.get? (k % fr.length)

/-- `database.take_free_proxy`: atomically lease a random FREE proxy,
returning `(proxy_id, proxy_address)` and the updated table. -/
def take_free_proxy (proxies : List Proxy) (w : String) (now : Nat) (k : Nat) :
    Option (Nat × String) × List Proxy :=
  match select_free_proxy proxies k with
  | none => (none, proxies)
  | some p =>
      (some (p.id, p.proxy_address),
       proxies.map (fun q => if q.id = p.id then leaseProxyUpdate w now q else q))

/-- `database.block_proxy`: `UPDATE proxies SET status = 'заблокирован',
worker_id = NULL, taken_at = NULL, blocked_at = NOW(), blocked_reason = $2
WHERE id = $1`. -/
def block_proxy (proxies : List Proxy) (pid : Nat) (reason : String) (now : Nat) :
    List Proxy :=
  proxies.map (fun p =>
    if p.id = pid then
      { p with status := .blocked, worker_id := none, taken_at := none,
               blocked_at := some now, blocked_reason := some reason }
    else p)

/-- `database.release_proxy`: `UPDATE proxies SET status = 'свободен',
worker_id = NULL, taken_at = NULL WHERE id = $1`.  Note: the WHERE clause
filters on the id only; there is no status guard. -/
def release_proxy (proxies : List Proxy) (pid : Nat) : List Proxy :=
  proxies.map (fun p =>
    if p.id = pid then
      { p with status := .free, worker_id := none, taken_at := none }
    else p)

/-- `database.update_heartbeat`: `UPDATE tasks SET last_heartbeat = NOW()
WHERE id = $1 AND status = 'в работе'`. -/
def update_heartbeat (tasks : List Task) (tid : Nat) (now : Nat) : List Task :=
  tasks.map (fun t =>
    if t.id = tid ∧ t.status = TaskStatus.inProgress then
      { t with last_heartbeat := some now }
    else t)

/-- `database.return_task_to_queue`: moves the task back to `'новая'`,
clears `worker_id` and `taken_at`, records `error_message`, and increments
`retry_count` when `increment_retry` is true (the source issues one of two
UPDATE statements differing only in the increment). -/
def return_task_to_queue (tasks : List Task) (tid : Nat) (msg : String)
    (increment_retry : Bool) : List Task :=
  tasks.map (fun t =>
    if t.id = tid then
      { t with status := .new, worker_id := none, taken_at := none,
               retry_count := t.retry_count + (if increment_retry then 1 else 0),
               error_message := some msg }
    else t)

/-- `database.mark_task_as_error`: `UPDATE tasks SET status = 'ошибка',
error_message = $2 WHERE id = $1`.  No other column is touched. -/
def mark_task_as_error (tasks : List Task) (tid : Nat) (msg : String) : List Task :=
  tasks.map (fun t =>
    if t.id = tid then { t with status := .error, error_message := some msg }
    else t)

/-- `database.complete_task`, restricted to its effect on the `tasks` table:
`UPDATE tasks SET status = 'завершена', completed_at = NOW() WHERE id = $1`
(the `processed_articles` upsert of the same transaction is not needed by
the claims about task rows).  No other column is touched. -/
def complete_task (tasks : List Task) (tid : Nat) (now : Nat) : List Task :=
  tasks.map (fun t =>
    if t.id = tid then { t with status := .done, completed_at := some now }
    else t)

/-- The stuck predicate of `return_stuck_tasks`: `status = 'в работе' AND
last_heartbeat < NOW() - INTERVAL '1 second' * $1` (a NULL heartbeat
compares as unknown and never matches). -/
def isStuck (stuckTimeout now : Nat) (t : Task) : Bool :=
  decide (t.status = TaskStatus.inProgress) &&
    (match t.last_heartbeat with
     | some lh => decide (lh + stuckTimeout < now)
     | none => false)

/-- The error message written by the second UPDATE of `return_stuck_tasks`. -/
def stuckMessage : String := "Превышено максимальное количество попыток (stuck timeout)"

/-- Row effect of the first UPDATE of `return_stuck_tasks`: a stuck task
with `retry_count < MAX_RETRY_ATTEMPTS` is returned to the queue with the
counter incremented. -/
def stuckPass1 (stuckTimeout maxRetry now : Nat) (t : Task) : Task :=
  if isStuck stuckTimeout now t && decide (t.retry_count < maxRetry) then
    { t with status := .new, worker_id := none, taken_at := none,
             retry_count := t.retry_count + 1 }
  else t

/-- Row effect of the second UPDATE of `return_stuck_tasks`: a stuck task
with `retry_count >= MAX_RETRY_ATTEMPTS` is marked as an error. -/
def stuckPass2 (stuckTimeout maxRetry now : Nat) (t : Task) : Task :=
  if isStuck stuckTimeout now t && decide (maxRetry ≤ t.retry_count) then
    { t with status := .error, worker_id := none, taken_at := none,
             error_message := some stuckMessage }
  else t

/-- `database.return_stuck_tasks`: two sequential full-table UPDATEs.  The
first returns stuck tasks with `retry_count < MAX_RETRY_ATTEMPTS` to the
queue incrementing the counter; the second marks the remaining stuck tasks
(`retry_count >= MAX_RETRY_ATTEMPTS`) as errors. -/
def return_stuck_tasks (stuckTimeout maxRetry now : Nat) (tasks : List Task) :
    List Task :=
  (tasks.map (stuckPass1 stuckTimeout maxRetry now)).map
    (stuckPass2 stuckTimeout maxRetry now)

/-- `database.get_task_retry_count`: `SELECT retry_count FROM tasks WHERE
id = $1`, returning `row['retry_count'] if row else 0`. -/
def get_task_retry_count (tasks : List Task) (tid : Nat) : Nat :=
  match tasks.find? (fun t => decide (t.id = tid)) with
  | some t => t.retry_count
  | none => 0

/-- The decision taken at step 7 of `worker_main_loop` on a failed parse
(`main.py` lines 915-930): mark the task as a terminal error when
`retry_count >= MAX_RETRY_ATTEMPTS`, otherwise return it to the queue. -/
inductive RetryDecision
  | markError
  | returnToQueue
deriving DecidableEq, Repr

/-- The worker's branch on `get_task_retry_count` after a failed parse. -/
def failed_parse_decision (retryCount maxRetry : Nat) : RetryDecision :=
  if maxRetry ≤ retryCount then .markError else .returnToQueue

/-- The core operations on the `tasks` table named by the task-field
invariant, each with its parameters. -/
inductive TaskOp
  | lease (w : String) (now : Nat)
  | heartbeat (tid : Nat) (now : Nat)
  | returnToQueue (tid : Nat) (msg : String) (increment_retry : Bool)
  | markError (tid : Nat) (msg : String)
  | complete (tid : Nat) (now : Nat)
  | stuckSweep (stuckTimeout maxRetry now : Nat)

/-- Effect of one core operation on the `tasks` table. -/
def applyTaskOp (tasks : List Task) : TaskOp → List Task
  | .lease w now => (take_next_task tasks w now).2
  | .heartbeat tid now => update_heartbeat tasks tid now
  | .returnToQueue tid msg incr => return_task_to_queue tasks tid msg incr
  | .markError tid msg => mark_task_as_error tasks tid msg
  | .complete tid now => complete_task tasks tid now
  | .stuckSweep st mr now => return_stuck_tasks st mr now tasks

/-- Reachability of a `tasks` table through the core operations. -/
def TaskReachable (s s' : List Task) : Prop :=
  Relation.ReflTransGen (fun a b => ∃ op, b = applyTaskOp a op) s s'

/-- Initial `tasks` tables: tasks are created externally as NEW rows with
no holder fields set. -/
def InitTasks (s : List Task) : Prop :=
  ∀ t ∈ s, t.status = TaskStatus.new ∧ t.worker_id = none ∧
    t.taken_at = none ∧ t.last_heartbeat = none

/-! Mechanical validation (`validation/mechanical.py`). -/

/-- Python strings at character granularity. -/
abbrev Str := List Char

/-- `text.lower()`. -/
def lowerStr (s : Str) : Str := s.map Char.toLower

/-- Python's substring operator `needle in hay`. -/
def containsSub (hay needle : Str) : Bool :=
  match hay with
  | [] => needle.isEmpty
  | _ :: t => needle.isPrefixOf hay || containsSub t needle

/-- `any(char in stopword for char in ['-', '/', '.'])`. -/
def hasSpecialChar (sw : Str) : Bool :=
  sw.any (fun c => c == '-' || c == '/' || c == '.')

/-- The f-string padding `f' {s} '` used for the whole-word check. -/
def padded (s : Str) : Str := ' ' :: (s ++ [' '])

/-- The per-stopword test of `check_stopwords`: substring search for
stop-words containing `-`, `/` or `.`, otherwise a surrounding-space
whole-word search against the lowercased text. -/
def stopwordHit (sw text : Str) : Bool :=
  if hasSpecialChar sw then containsSub (lowerStr text) sw
  else containsSub (padded (lowerStr text)) (padded sw)

/-- `mechanical.check_stopwords`, with the module-level `STOPWORDS` list made
an explicit parameter: returns the stop-words found in `text` (an empty text
yields no hits). -/
def check_stopwords (stopwords : List Str) (text : Str) : List Str :=
  if text.isEmpty then []
  else stopwords.filter (fun sw => stopwordHit sw text)

/-- `mechanical.calculate_price_threshold`: 50% of the mean of the top-20%
prices after dropping outliers above three times the top-slice median
(`int(len * 0.2)` is `⌊n / 5⌋` for a non-negative length). -/
def calculate_price_threshold (prices : List ℚ) : Option ℚ :=
  if prices.isEmpty then none
  else
    let sorted_prices := prices.insertionSort (fun a b => b ≤ a)
    let top20_count := max 1 (prices.length / 5)
    let top20_prices := sorted_prices.take top20_count
    let sorted_top20 := top20_prices.insertionSort (fun a b => a ≤ b)
    let median := sorted_top20.getD (sorted_top20.length / 2) 0
    let filtered := top20_prices.filter (fun p => decide (p ≤ median * 3))
    let filtered2 := if filtered.isEmpty then [median] else filtered
    some ((filtered2.sum / (filtered2.length : ℚ)) * (1/2))

/-- One catalog listing as consumed by the validators (`avito_item_id = 0`
models a missing/falsy id, matching Python truthiness). -/
structure Listing where
  avito_item_id : Nat
  title : Str
  description : Str
  seller : Str
  price : ℚ
deriving DecidableEq, Repr

/-- `[item.get('price', 0) for item in listings if item.get('price')]`. -/
def listingPrices (listings : List Listing) : List ℚ :=
  (listings.filter (fun i => decide (i.price ≠ 0))).map Listing.price

/-- Outcome of one validation stage for one listing (the always-`None`
`validation_details` of the mechanical stage is omitted; the AI stage's
details blob is likewise not needed by any claim). -/
structure StageResult where
  passed : Bool
  rejection_reason : Option String
deriving DecidableEq, Repr

/-- Python dict assignment `m[k] = v`: replaces the value in place when the
key is present, otherwise appends (insertion-ordered dict semantics). -/
def dictInsert {α : Type} (m : List (Nat × α)) (k : Nat) (v : α) : List (Nat × α) :=
  match m with
  | [] => [(k, v)]
  | (k', v') :: rest =>
      if k' = k then (k, v) :: rest else (k', v') :: dictInsert rest k v

/-- Python dict lookup `m[k]`. -/
def dictGet {α : Type} (m : List (Nat × α)) (k : Nat) : Option α :=
  (m.find? (fun p => decide (p.1 = k))).map (fun p => p.2)

/-- The price check of `validate_mechanical` for one listing: skipped (and
passing) when the threshold is `None` or falsy or the price is not positive,
otherwise `price >= price_threshold`. -/
def priceValid (price_threshold : Option ℚ) (price : ℚ) : Bool :=
  match price_threshold with
  | some thr => if thr ≠ 0 ∧ 0 < price then decide (thr ≤ price) else true
  | none => true

/-- The per-listing body of `validate_mechanical`, given the precomputed
price threshold. -/
def mechRow (stopwords : List Str) (price_threshold : Option ℚ) (item : Listing) :
    StageResult :=
  let all_stopwords :=
    check_stopwords stopwords item.title ++ check_stopwords stopwords item.description
      ++ check_stopwords stopwords item.seller
  { passed := all_stopwords.isEmpty && priceValid price_threshold item.price,
    rejection_reason :=
      if !all_stopwords.isEmpty then some "stopwords"
      else if !priceValid price_threshold item.price then some "price" else none }

/-- `mechanical.validate_mechanical`: the resulting `{avito_item_id: result}`
dict, built in listing order and skipping falsy ids. -/
def validate_mechanical (stopwords : List Str) (listings : List Listing) :
    List (Nat × StageResult) :=
  if listings.isEmpty then []
  else
    let price_threshold := calculate_price_threshold (listingPrices listings)
    listings.foldl (fun results item =>
      if item.avito_item_id = 0 then results
      else dictInsert results item.avito_item_id (mechRow stopwords price_threshold item))
      []

/-! AI validation (`validation/ai.py`) and the validation-and-save pipeline
(`main.py process_validation_and_save`). -/

/-- Abstraction of the LLM endpoint's behaviour for one request: the 60 s
`asyncio.wait_for` bound fires, the reply is not valid JSON, or a parsed
reply `{passed_ids, rejected}` arrives. -/
inductive AiResponse
  | timeout
  | badJson
  | ok (passed_ids : List Nat) (rejected : List (Nat × String))

/-- The exception `validate_ai` lets escape on a request timeout. -/
inductive AiFailure
  | timeout
deriving DecidableEq, Repr

/-- `ai.validate_ai`: composes per-listing results from the LLM reply.
A timeout is re-raised (`Except.error`); a JSON decode failure falls back to
all-passed over the input listings; otherwise `passed_ids` rows are written
first and `rejected` rows second (overwriting on duplicate ids, skipping
falsy ids as the source's `if avito_id:` does). -/
def validate_ai (listings : List Listing) (resp : AiResponse) :
    Except AiFailure (List (Nat × StageResult)) :=
  if listings.isEmpty then .ok []
  else
    match resp with
    | .timeout => .error .timeout
    | .badJson =>
        .ok ((listings.filter (fun i => decide (i.avito_item_id ≠ 0))).foldl
          (fun m i => dictInsert m i.avito_item_id
            { passed := true, rejection_reason := none }) [])
    | .ok passed_ids rejected =>
        let afterPassed := passed_ids.foldl (fun m pid =>
          dictInsert m pid { passed := true, rejection_reason := none }) []
        .ok (rejected.foldl (fun m pr =>
          if pr.1 = 0 then m
          else dictInsert m pr.1 { passed := false, rejection_reason := some pr.2 })
          afterPassed)

/-- Validation stage of a `validation_results` row: `'механическая'` or `'ИИ'`. -/
inductive ValType
  | mechanical
  | ai
deriving DecidableEq, Repr

/-- One row of the `validation_results` table (`created_at` is modelled by
list position: rows are appended in insertion order). -/
structure ValRow where
  avito_item_id : Nat
  validation_type : ValType
  passed : Bool
  rejection_reason : Option String
deriving DecidableEq, Repr

/-- The `save_validation_result` rows written for a stage's result dict. -/
def stageRows (vt : ValType) (m : List (Nat × StageResult)) : List ValRow :=
  m.map (fun kv =>
    { avito_item_id := kv.1, validation_type := vt,
      passed := kv.2.passed, rejection_reason := kv.2.rejection_reason })

/-- `main.process_validation_and_save`, as a function of the listing set, the
LLM behaviour and the pre-existing `validation_results` log: returns the new
log and `(items_found, items_passed)`.  Mechanical rows are saved for every
listing; the AI stage runs only when some listing passed mechanically and an
API key is configured, and any exception from `validate_ai` is caught,
falling back to the mechanical pass count. -/
def process_validation_and_save (stopwords : List Str) (apiKey : Bool)
    (listings : List Listing) (resp : AiResponse) (log : List ValRow) :
    List ValRow × Nat × Nat :=
  if listings.isEmpty then (log, 0, 0)
  else
    let mech := validate_mechanical stopwords listings
    let log1 := log ++ stageRows .mechanical mech
    let mech_passed_ids := (mech.filter (fun kv => kv.2.passed)).map (fun kv => kv.1)
    if !mech_passed_ids.isEmpty && apiKey then
      let ai_listings := listings.filter (fun i => i.avito_item_id ∈ mech_passed_ids)
      match validate_ai ai_listings resp with
      | .ok aiResults =>
          (log1 ++ stageRows .ai aiResults, listings.length,
           (aiResults.filter (fun kv => kv.2.passed)).length)
      | .error _ => (log1, listings.length, mech_passed_ids.length)
    else (log1, listings.length, mech_passed_ids.length)

/-- How the worker's main loop disposes of the task after the validation
stage: `worker_main_loop` completes the task (step FINALIZING) unless an
exception escaped, in which case the outer handler returns it to the queue. -/
inductive TaskOutcome
  | completed (processing_status : String) (items_found items_passed : Nat)
  | returnedToQueue (increment_retry : Bool)
deriving DecidableEq, Repr

/-- The task outcome produced by the code after `process_validation_and_save`
(which, as written, never lets an AI exception escape): `complete_task` with
`'no_results'` when nothing was found, else `'success'`. -/
def task_outcome_after_validation (stopwords : List Str) (apiKey : Bool)
    (listings : List Listing) (resp : AiResponse) (log : List ValRow) :
    TaskOutcome :=
  let r := process_validation_and_save stopwords apiKey listings resp log
  .completed (if r.2.1 = 0 then "no_results" else "success") r.2.1 r.2.2

/-- `ids` mentioned by a parsed LLM reply: all of `passed_ids` plus the
truthy `avito_item_id`s of `rejected`. -/
def respIds : AiResponse → List Nat
  | .timeout => []
  | .badJson => []
  | .ok passed_ids rejected =>
      passed_ids ++
        (rejected.filter (fun pr => decide (¬ pr.1 = 0))).map (fun pr => pr.1)

/-- The mechanically-passed ids of a listing set (`mechanical_passed_ids`). -/
def mechanical_passed_ids (stopwords : List Str) (listings : List Listing) :
    List Nat :=
  ((validate_mechanical stopwords listings).filter (fun kv => kv.2.passed)).map
    (fun kv => kv.1)

/-- The subset of listings submitted to the AI stage (`ai_listings`): those
whose id passed mechanical validation. -/
def aiListings (stopwords : List Str) (listings : List Listing) : List Listing :=
  listings.filter
    (fun i => i.avito_item_id ∈ mechanical_passed_ids stopwords listings)

/-- Latest MECHANICAL `validation_results` row for a card, by insertion
order. -/
def latest_mech_passed (log : List ValRow) (id : Nat) : Option Bool :=
  ((log.filter (fun r =>
      decide (r.avito_item_id = id) && decide (r.validation_type = ValType.mechanical))).getLast?).map
    (fun r => r.passed)

/-! Catalog entry (`worker_main_loop` step 4, `main.py` lines 795-877). -/

/-- Page states reported by `detect_page_state` at catalog entry. -/
inductive PageState
  | captcha
  | continueButton
  | rateLimit429
  | block403
  | auth407
  | cardFound
  | notDetected
deriving DecidableEq, Repr

/-- Environment of one iteration of the catalog-entry `while True` loop:
whether `page.goto` succeeded, the detected page state, the captcha solver's
verdict when it is invoked, and whether `rotate_blocked_proxy` would succeed
(a free proxy exists and the new browser launches) when it is invoked. -/
structure EntryIter where
  gotoOk : Bool
  state : PageState
  captchaSolved : Bool
  rotateOk : Bool
deriving DecidableEq, Repr

/-- `CATALOG_PROXY_ROTATION_LIMIT` (`main.py` line 69). -/
def CATALOG_PROXY_ROTATION_LIMIT : Nat := 5

/-- How the catalog-entry loop ends. -/
inductive EntryOutcome
  | entered
  | returnedRetry (msg : String)
  | returnedNoRetry (msg : String)
deriving DecidableEq, Repr

/-- `check_and_solve_captcha` invokes the solver only on the captcha-like
states; on any other state it reports no captcha. -/
def captchaGate (it : EntryIter) : Bool :=
  if it.state = PageState.captcha ∨ it.state = PageState.continueButton ∨
      it.state = PageState.rateLimit429 then
    it.captchaSolved
  else true

/-- The catalog-entry `while True` loop, driven by the environment trace
`iters` with `rotation_attempts` accumulated in `attempts`.  Returns the
outcome (`none` when the trace is too short to decide) and the number of
successful proxy rotations performed.  Matches the source branch order:
goto errors first, then the captcha gate, then the 403/407 rotation branch
with its limit check, otherwise the successful `break`. -/
def catalogEntryLoop : List EntryIter → Nat → Option EntryOutcome × Nat
  | [], _ => (none, 0)
  | it :: rest, attempts =>
      if !it.gotoOk then
        (some (.returnedRetry "Catalog goto error"), 0)
      else if !captchaGate it then
        (some (.returnedRetry "Captcha not solved"), 0)
      else if it.state = PageState.block403 ∨ it.state = PageState.auth407 then
        if CATALOG_PROXY_ROTATION_LIMIT < attempts + 1 then
          (some (.returnedNoRetry "Proxy blocked (rotation limit)"), 0)
        else if it.rotateOk then
          let r := catalogEntryLoop rest (attempts + 1)
          (r.1, r.2 + 1)
        else
          (some (.returnedNoRetry "Proxy blocked (rotation failed)"), 0)
      else (some .entered, 0)

/-- An iteration that reports a 403 proxy block with a rotation available. -/
def blockedIter : EntryIter :=
  { gotoOk := true, state := .block403, captchaSolved := true, rotateOk := true }

/-! Concrete rows used by counterexamples and witnesses. -/

/-- A BLOCKED proxy row. -/
def blockedProxyEx : Proxy :=
  { id := 1, proxy_address := "h:p:u:w", status := .blocked, worker_id := none,
    taken_at := none, blocked_at := some 5, blocked_reason := some "403" }

/-- An IN_USE proxy row. -/
def inUseProxyEx : Proxy :=
  { id := 1, proxy_address := "h:p:u:w", status := .inUse, worker_id := some "worker_1",
    taken_at := some 3, blocked_at := none, blocked_reason := none }

/-- A fresh NEW task row. -/
def newTaskEx : Task :=
  { id := 1, article := "A1", status := .new, worker_id := none, taken_at := none,
    last_heartbeat := none, completed_at := none, retry_count := 0,
    error_message := none, created_at := 0 }

/-- A second fresh NEW task row. -/
def newTaskEx2 : Task :=
  { id := 2, article := "A2", status := .new, worker_id := none, taken_at := none,
    last_heartbeat := none, completed_at := none, retry_count := 0,
    error_message := none, created_at := 1 }

/-- An IN_PROGRESS task row whose heartbeat is long expired and whose retry
budget is exhausted. -/
def stuckTaskEx : Task :=
  { id := 7, article := "S", status := .inProgress, worker_id := some "w",
    taken_at := some 0, last_heartbeat := some 0, completed_at := none,
    retry_count := 3, error_message := none, created_at := 0 }

/-- An IN_PROGRESS task row whose heartbeat is long expired with retry
budget remaining. -/
def stuckTaskEx0 : Task :=
  { id := 8, article := "S0", status := .inProgress, worker_id := some "w",
    taken_at := some 0, last_heartbeat := some 0, completed_at := none,
    retry_count := 0, error_message := none, created_at := 0 }

/-- The price threshold as worded by the specification, for comparison with
the source's `calculate_price_threshold`: take the `max(1, ⌊0.2·n⌋)` largest
prices (computed here by an independent algorithm, a descending merge sort),
drop from that slice every price above `3 ×` its median, fall back to the
median alone if everything was dropped, and halve the mean of what is kept. -/
def claimPriceThreshold (prices : List ℚ) : Option ℚ :=
  if prices.isEmpty then none
  else
    let slice := (prices.mergeSort (fun a b => decide (b ≤ a))).take
      (max 1 (prices.length / 5))
    let sortedSlice := slice.mergeSort (fun a b => decide (a ≤ b))
    let med := sortedSlice.getD (sortedSlice.length / 2) 0
    let kept := slice.filter (fun p => decide (¬ 3 * med < p))
    let kept2 := if kept.isEmpty then [med] else kept
    some ((kept2.sum / (kept2.length : ℚ)) / 2)

/-- A listing whose title consists of the single letter `x` (hits the sample
stop-word) and has no usable price. -/
def stopwordListing : Listing :=
  { avito_item_id := 1, title := ['x'], description := [], seller := [], price := 0 }

/-- A listing with a clean title and no usable price. -/
def cleanListing : Listing :=
  { avito_item_id := 2, title := ['y'], description := [], seller := [], price := 0 }

/-- A clean low-priced listing. -/
def cheapListing : Listing :=
  { avito_item_id := 1, title := [], description := [], seller := [], price := 1 }

/-- A clean high-priced listing. -/
def richListing : Listing :=
  { avito_item_id := 2, title := [], description := [], seller := [], price := 4 }

/-! Helper lemmas about the leasing primitives. -/

theorem select_next_new_spec {tasks : List Task} {t : Task}
    (h : select_next_new tasks = some t) :
    t ∈ tasks ∧ t.status = TaskStatus.new := by
  have hm : t ∈ tasks.filter (fun t => decide (t.status = TaskStatus.new)) :=
    List.argmin_mem h
  have := List.mem_filter.mp hm
  exact ⟨this.1, of_decide_eq_true this.2⟩

theorem select_free_proxy_spec {proxies : List Proxy} {k : Nat} {p : Proxy}
    (h : select_free_proxy proxies k = some p) :
    p ∈ proxies ∧ p.status = ProxyStatus.free := by
  unfold select_free_proxy at h
  have hm : p ∈ proxies.filter (fun p => decide (p.status = ProxyStatus.free)) :=
    List.get?_mem h
  have := List.mem_filter.mp hm
  exact ⟨this.1, of_decide_eq_true this.2⟩

theorem take_next_task_some {tasks : List Task} {w : String} {now tid : Nat} {a : String}
    (h : (take_next_task tasks w now).1 = some (tid, a)) :
    ∃ t, select_next_new tasks = some t ∧ t.id = tid ∧
      (take_next_task tasks w now).2 =
        tasks.map (fun u => if u.id = t.id then leaseTaskUpdate w now u else u) := by
  unfold take_next_task at h ⊢
  cases hsel : select_next_new tasks with
  | none => rw [hsel] at h; exact absurd h (by simp)
  | some t =>
      rw [hsel] at h
      simp only [Option.some.injEq, Prod.mk.injEq] at h
      exact ⟨t, rfl, h.1, rfl⟩

theorem take_free_proxy_some {proxies : List Proxy} {w : String} {now k pid : Nat}
    {a : String} (h : (take_free_proxy proxies w now k).1 = some (pid, a)) :
    ∃ p, select_free_proxy proxies k = some p ∧ p.id = pid ∧
      (take_free_proxy proxies w now k).2 =
        proxies.map (fun q => if q.id = p.id then leaseProxyUpdate w now q else q) := by
  unfold take_free_proxy at h ⊢
  cases hsel : select_free_proxy proxies k with
  | none => rw [hsel] at h; exact absurd h (by simp)
  | some p =>
      rw [hsel] at h
      simp only [Option.some.injEq, Prod.mk.injEq] at h
      exact ⟨p, rfl, h.1, rfl⟩

/-- Claim C1: `take_next_task` transitions only a NEW task to IN_PROGRESS in
one atomic step stamping the calling worker, and `take_free_proxy` only a
FREE proxy to IN_USE; consequently two consecutive leases of the store never
hand the same task, or the same proxy, to two callers. -/
theorem lease_single_assignment :
    (∀ (tasks : List Task) (w : String) (now tid : Nat) (a : String),
      (take_next_task tasks w now).1 = some (tid, a) →
      (∃ t ∈ tasks, t.id = tid ∧ t.status = TaskStatus.new) ∧
      (∀ u ∈ (take_next_task tasks w now).2, u.id = tid →
        u.status = TaskStatus.inProgress ∧ u.worker_id = some w ∧
        u.taken_at = some now ∧ u.last_heartbeat = some now)) ∧
    (∀ (tasks : List Task) (w1 w2 : String) (n1 n2 t1 t2 : Nat) (a1 a2 : String),
      (take_next_task tasks w1 n1).1 = some (t1, a1) →
      (take_next_task ((take_next_task tasks w1 n1).2) w2 n2).1 = some (t2, a2) →
      t1 ≠ t2) ∧
    (∀ (proxies : List Proxy) (w : String) (now k pid : Nat) (a : String),
      (take_free_proxy proxies w now k).1 = some (pid, a) →
      (∃ p ∈ proxies, p.id = pid ∧ p.status = ProxyStatus.free) ∧
      (∀ q ∈ (take_free_proxy proxies w now k).2, q.id = pid →
        q.status = ProxyStatus.inUse ∧ q.worker_id = some w ∧ q.taken_at = some now)) ∧
    (∀ (proxies : List Proxy) (w1 w2 : String) (n1 n2 k1 k2 p1 p2 : Nat) (a1 a2 : String),
      (take_free_proxy proxies w1 n1 k1).1 = some (p1, a1) →
      (take_free_proxy ((take_free_proxy proxies w1 n1 k1).2) w2 n2 k2).1 = some (p2, a2) →
      p1 ≠ p2) := by
  refine ⟨?_, ?_, ?_, ?_⟩
  · intro tasks w now tid a h
    obtain ⟨t, hsel, hid, hupd⟩ := take_next_task_some h
    obtain ⟨hmem, hnew⟩ := select_next_new_spec hsel
    refine ⟨⟨t, hmem, hid, hnew⟩, ?_⟩
    intro u hu huid
    rw [hupd] at hu
    obtain ⟨v, _, hv⟩ := List.mem_map.mp hu
    by_cases hcase : v.id = t.id
    · rw [if_pos hcase] at hv
      subst hv
      exact ⟨rfl, rfl, rfl, rfl⟩
    · rw [if_neg hcase] at hv
      subst hv
      exact absurd (hid ▸ huid) hcase
  · intro tasks w1 w2 n1 n2 t1 t2 a1 a2 h1 h2 heq
    obtain ⟨s1, hsel1, hid1, hupd1⟩ := take_next_task_some h1
    obtain ⟨s2, hsel2, hid2, hupd2⟩ := take_next_task_some h2
    obtain ⟨hmem2, hnew2⟩ := select_next_new_spec hsel2
    rw [hupd1] at hmem2
    obtain ⟨v, _, hv⟩ := List.mem_map.mp hmem2
    by_cases hcase : v.id = s1.id
    · rw [if_pos hcase] at hv
      have : s2.status = TaskStatus.inProgress := by rw [← hv]; rfl
      rw [this] at hnew2
      exact absurd hnew2 (by decide)
    · rw [if_neg hcase] at hv
      apply hcase
      rw [hv, hid2, ← heq, ← hid1]
  · intro proxies w now k pid a h
    obtain ⟨p, hsel, hid, hupd⟩ := take_free_proxy_some h
    obtain ⟨hmem, hfree⟩ := select_free_proxy_spec hsel
    refine ⟨⟨p, hmem, hid, hfree⟩, ?_⟩
    intro q hq hqid
    rw [hupd] at hq
    obtain ⟨v, _, hv⟩ := List.mem_map.mp hq
    by_cases hcase : v.id = p.id
    · rw [if_pos hcase] at hv
      subst hv
      exact ⟨rfl, rfl, rfl⟩
    · rw [if_neg hcase] at hv
      subst hv
      exact absurd (hid ▸ hqid) hcase
  · intro proxies w1 w2 n1 n2 k1 k2 p1 p2 a1 a2 h1 h2 heq
    obtain ⟨s1, hsel1, hid1, hupd1⟩ := take_free_proxy_some h1
    obtain ⟨s2, hsel2, hid2, hupd2⟩ := take_free_proxy_some h2
    obtain ⟨hmem2, hfree2⟩ := select_free_proxy_spec hsel2
    rw [hupd1] at hmem2
    obtain ⟨v, _, hv⟩ := List.mem_map.mp hmem2
    by_cases hcase : v.id = s1.id
    · rw [if_pos hcase] at hv
      have : s2.status = ProxyStatus.inUse := by rw [← hv]; rfl
      rw [this] at hfree2
      exact absurd hfree2 (by decide)
    · rw [if_neg hcase] at hv
      apply hcase
      rw [hv, hid2, ← heq, ← hid1]

/-- Witness for C1: leasing twice on a two-task queue yields two distinct
tasks, and the first lease stamped the NEW task as IN_PROGRESS. -/
theorem lease_single_assignment_witness :
    ((take_next_task [newTaskEx, newTaskEx2] "w1" 10).1 = some (1, "A1")) ∧
    ((take_next_task ((take_next_task [newTaskEx, newTaskEx2] "w1" 10).2) "w2" 11).1 =
      some (2, "A2")) ∧
    (1 : Nat) ≠ 2 := by
  refine ⟨by decide, by decide, ?_⟩
  exact lease_single_assignment.2.1 [newTaskEx, newTaskEx2] "w1" "w2" 10 11 1 2 "A1" "A2"
    (by decide) (by decide)

/-- Counterexample to C2: `release_proxy`'s UPDATE filters on the id only,
so invoking it on a BLOCKED proxy moves that proxy to FREE — the operation
does not require the current status to be IN_USE, and a BLOCKED→FREE
transition exists in the core. -/
theorem release_blocked_counterexample :
    blockedProxyEx.status = ProxyStatus.blocked ∧
    (release_proxy [blockedProxyEx] 1).map Proxy.status = [ProxyStatus.free] := by
  decide

/-- Claim C2, amended: `release_proxy` sets the addressed proxy to FREE
unconditionally (there is no status guard), so it does move an IN_USE proxy
back to FREE but equally moves a BLOCKED one; rows with other ids are
untouched.  Neither `take_free_proxy` nor `block_proxy` ever transitions a
BLOCKED proxy to FREE. -/
theorem release_proxy_amended :
    (∀ (proxies : List Proxy) (pid i : Nat) (p p' : Proxy),
      proxies.get? i = some p → (release_proxy proxies pid).get? i = some p' →
      (p.id = pid → p'.status = ProxyStatus.free ∧ p'.worker_id = none ∧
        p'.taken_at = none) ∧
      (p.id ≠ pid → p' = p)) ∧
    (∀ (proxies : List Proxy) (pid i now : Nat) (reason : String) (p p' : Proxy),
      proxies.get? i = some p → (block_proxy proxies pid reason now).get? i = some p' →
      p.status = ProxyStatus.blocked → p'.status ≠ ProxyStatus.free) ∧
    (∀ (proxies : List Proxy) (w : String) (now k i : Nat) (p p' : Proxy),
      proxies.get? i = some p →
      ((take_free_proxy proxies w now k).2).get? i = some p' →
      p.status = ProxyStatus.blocked → p'.status ≠ ProxyStatus.free) := by
  refine ⟨?_, ?_, ?_⟩
  · intro proxies pid i p p' hp hp'
    unfold release_proxy at hp'
    rw [List.get?_map, hp] at hp'
    simp only [Option.map_some', Option.some.injEq] at hp'
    constructor
    · intro hid
      rw [if_pos hid] at hp'
      rw [← hp']
      exact ⟨rfl, rfl, rfl⟩
    · intro hid
      rw [if_neg hid] at hp'
      exact hp'.symm
  · intro proxies pid i now reason p p' hp hp' hblocked
    unfold block_proxy at hp'
    rw [List.get?_map, hp] at hp'
    simp only [Option.map_some', Option.some.injEq] at hp'
    by_cases hid : p.id = pid
    · rw [if_pos hid] at hp'
      rw [← hp']
      intro hc
      exact ProxyStatus.noConfusion hc
    · rw [if_neg hid] at hp'
      rw [← hp', hblocked]
      decide
  · intro proxies w now k i p p' hp hp' hblocked
    unfold take_free_proxy at hp'
    cases hsel : select_free_proxy proxies k with
    | none =>
        rw [hsel] at hp'
        simp only at hp'
        rw [hp] at hp'
        cases hp'
        rw [hblocked]
        decide
    | some q =>
        rw [hsel] at hp'
        simp only at hp'
        rw [List.get?_map, hp] at hp'
        simp only [Option.map_some', Option.some.injEq] at hp'
        by_cases hid : p.id = q.id
        · rw [if_pos hid] at hp'
          rw [← hp']
          intro hc
          exact ProxyStatus.noConfusion hc
        · rw [if_neg hid] at hp'
          rw [← hp', hblocked]
          decide

/-- Witness for C2 (amended): releasing an IN_USE proxy frees it. -/
theorem release_proxy_amended_witness :
    ([inUseProxyEx].get? 0 = some inUseProxyEx) ∧
    ((release_proxy [inUseProxyEx] 1).get? 0 =
      some { id := 1, proxy_address := "h:p:u:w", status := .free, worker_id := none,
             taken_at := none, blocked_at := none, blocked_reason := none }) ∧
    ((inUseProxyEx.id = 1 →
        ({ id := 1, proxy_address := "h:p:u:w", status := ProxyStatus.free,
           worker_id := none, taken_at := none, blocked_at := none,
           blocked_reason := none } : Proxy).status = ProxyStatus.free ∧
        ({ id := 1, proxy_address := "h:p:u:w", status := ProxyStatus.free,
           worker_id := none, taken_at := none, blocked_at := none,
           blocked_reason := none } : Proxy).worker_id = none ∧
        ({ id := 1, proxy_address := "h:p:u:w", status := ProxyStatus.free,
           worker_id := none, taken_at := none, blocked_at := none,
           blocked_reason := none } : Proxy).taken_at = none) ∧
      (inUseProxyEx.id ≠ 1 →
        ({ id := 1, proxy_address := "h:p:u:w", status := ProxyStatus.free,
           worker_id := none, taken_at := none, blocked_at := none,
           blocked_reason := none } : Proxy) = inUseProxyEx)) := by
  refine ⟨by decide, by decide, ?_⟩
  exact release_proxy_amended.1 [inUseProxyEx] 1 0 inUseProxyEx _ (by decide) (by decide)

/-- Claim C10: `get_task_retry_count` returns 0 when no task row with the
given id exists, and with a positive retry budget that value steers the
worker's failed-parse branch to return the task to the queue rather than
mark it as a terminal error. -/
theorem get_task_retry_count_missing :
    (∀ (tasks : List Task) (tid : Nat), (∀ t ∈ tasks, t.id ≠ tid) →
      get_task_retry_count tasks tid = 0) ∧
    (∀ (tasks : List Task) (tid maxRetry : Nat), (∀ t ∈ tasks, t.id ≠ tid) →
      0 < maxRetry →
      failed_parse_decision (get_task_retry_count tasks tid) maxRetry =
        RetryDecision.returnToQueue) := by
  have key : ∀ (tasks : List Task) (tid : Nat), (∀ t ∈ tasks, t.id ≠ tid) →
      get_task_retry_count tasks tid = 0 := by
    intro tasks tid h
    unfold get_task_retry_count
    have : tasks.find? (fun t => decide (t.id = tid)) = none := by
      rw [List.find?_eq_none]
      intro t ht
      simpa using h t ht
    rw [this]
  refine ⟨key, ?_⟩
  intro tasks tid maxRetry h hpos
  rw [key tasks tid h]
  unfold failed_parse_decision
  rw [if_neg (by omega)]

/-- Witness for C10: a store holding only task id 2 yields retry count 0 for
the absent task id 1, and the worker would return it to the queue. -/
theorem get_task_retry_count_missing_witness :
    get_task_retry_count [newTaskEx2] 1 = 0 ∧
    failed_parse_decision (get_task_retry_count [newTaskEx2] 1) 3 =
      RetryDecision.returnToQueue := by
  constructor
  · exact get_task_retry_count_missing.1 [newTaskEx2] 1 (by decide)
  · exact get_task_retry_count_missing.2 [newTaskEx2] 1 3 (by decide) (by decide)

/-- Preservation of the IN_PROGRESS-fields invariant by every core task
operation. -/
theorem task_fields_inv_step (s : List Task) (op : TaskOp)
    (h : ∀ t ∈ s, t.status = TaskStatus.inProgress →
      t.worker_id ≠ none ∧ t.taken_at ≠ none ∧ t.last_heartbeat ≠ none) :
    ∀ t ∈ applyTaskOp s op, t.status = TaskStatus.inProgress →
      t.worker_id ≠ none ∧ t.taken_at ≠ none ∧ t.last_heartbeat ≠ none := by
  cases op with
  | lease w now =>
      intro t ht hst
      simp only [applyTaskOp, take_next_task] at ht
      cases hsel : select_next_new s with
      | none => rw [hsel] at ht; exact h t ht hst
      | some sel =>
          rw [hsel] at ht
          simp only at ht
          obtain ⟨v, hv, hveq⟩ := List.mem_map.mp ht
          by_cases hc : v.id = sel.id
          · rw [if_pos hc] at hveq
            rw [← hveq]
            refine ⟨?_, ?_, ?_⟩ <;> simp [leaseTaskUpdate]
          · rw [if_neg hc] at hveq
            rw [← hveq] at hst ⊢
            exact h v hv hst
  | heartbeat tid now =>
      intro t ht hst
      simp only [applyTaskOp, update_heartbeat] at ht
      obtain ⟨v, hv, hveq⟩ := List.mem_map.mp ht
      by_cases hc : v.id = tid ∧ v.status = TaskStatus.inProgress
      · rw [if_pos hc] at hveq
        have hv3 := h v hv hc.2
        rw [← hveq]
        exact ⟨hv3.1, hv3.2.1, by simp⟩
      · rw [if_neg hc] at hveq
        rw [← hveq] at hst ⊢
        exact h v hv hst
  | returnToQueue tid msg incr =>
      intro t ht hst
      simp only [applyTaskOp, return_task_to_queue] at ht
      obtain ⟨v, hv, hveq⟩ := List.mem_map.mp ht
      by_cases hc : v.id = tid
      · rw [if_pos hc] at hveq
        rw [← hveq] at hst
        exact TaskStatus.noConfusion hst
      · rw [if_neg hc] at hveq
        rw [← hveq] at hst ⊢
        exact h v hv hst
  | markError tid msg =>
      intro t ht hst
      simp only [applyTaskOp, mark_task_as_error] at ht
      obtain ⟨v, hv, hveq⟩ := List.mem_map.mp ht
      by_cases hc : v.id = tid
      · rw [if_pos hc] at hveq
        rw [← hveq] at hst
        exact TaskStatus.noConfusion hst
      · rw [if_neg hc] at hveq
        rw [← hveq] at hst ⊢
        exact h v hv hst
  | complete tid now =>
      intro t ht hst
      simp only [applyTaskOp, complete_task] at ht
      obtain ⟨v, hv, hveq⟩ := List.mem_map.mp ht
      by_cases hc : v.id = tid
      · rw [if_pos hc] at hveq
        rw [← hveq] at hst
        exact TaskStatus.noConfusion hst
      · rw [if_neg hc] at hveq
        rw [← hveq] at hst ⊢
        exact h v hv hst
  | stuckSweep st mr now =>
      intro t ht hst
      simp only [applyTaskOp, return_stuck_tasks] at ht
      obtain ⟨u, hu, hueq⟩ := List.mem_map.mp ht
      obtain ⟨v, hv, hveq⟩ := List.mem_map.mp hu
      have hpass1 : u.status = TaskStatus.inProgress →
          u.worker_id ≠ none ∧ u.taken_at ≠ none ∧ u.last_heartbeat ≠ none := by
        intro hust
        rw [← hveq] at hust ⊢
        unfold stuckPass1 at hust ⊢
        by_cases hc : (isStuck st now v && decide (v.retry_count < mr)) = true
        · rw [if_pos hc] at hust
          exact TaskStatus.noConfusion hust
        · rw [if_neg hc] at hust ⊢
          exact h v hv hust
      rw [← hueq] at hst ⊢
      unfold stuckPass2 at hst ⊢
      by_cases hc : (isStuck st now u && decide (mr ≤ u.retry_count)) = true
      · rw [if_pos hc] at hst
        exact TaskStatus.noConfusion hst
      · rw [if_neg hc] at hst ⊢
        exact hpass1 hst

/-- Counterexample to C3: starting from a single NEW task, leasing it and
then completing it is reachable through the core operations and leaves a
DONE row whose `worker_id`, `taken_at` and `last_heartbeat` are all still
non-null — `complete_task` never clears them, so non-null does not imply
status = IN_PROGRESS. -/
theorem task_fields_iff_counterexample :
    InitTasks [newTaskEx] ∧
    TaskReachable [newTaskEx]
      (applyTaskOp (applyTaskOp [newTaskEx] (.lease "w" 5)) (.complete 1 9)) ∧
    (applyTaskOp (applyTaskOp [newTaskEx] (.lease "w" 5)) (.complete 1 9)).map
        (fun t => (t.status, t.worker_id, t.taken_at, t.last_heartbeat)) =
      [(TaskStatus.done, some "w", some 5, some 5)] := by
  refine ⟨by unfold InitTasks; decide, ?_, by decide⟩
  exact Relation.ReflTransGen.tail
    (Relation.ReflTransGen.tail Relation.ReflTransGen.refl ⟨.lease "w" 5, rfl⟩)
    ⟨.complete 1 9, rfl⟩

/-- Claim C3, amended: in every store reachable from an initial store of
externally-created NEW tasks through the core operations, an IN_PROGRESS
task row has non-null `worker_id`, `taken_at` and `last_heartbeat`.  (The
converse direction of the claimed "iff" is false: `complete_task` and
`mark_task_as_error` do not clear those fields, and `return_task_to_queue`
and `return_stuck_tasks` leave `last_heartbeat` set.) -/
theorem task_fields_inprogress_invariant (s0 s : List Task)
    (hinit : InitTasks s0) (hreach : TaskReachable s0 s) :
    ∀ t ∈ s, t.status = TaskStatus.inProgress →
      t.worker_id ≠ none ∧ t.taken_at ≠ none ∧ t.last_heartbeat ≠ none := by
  induction hreach with
  | refl =>
      intro t ht hst
      rw [(hinit t ht).1] at hst
      exact TaskStatus.noConfusion hst
  | tail hsteps hstep ih =>
      obtain ⟨op, rfl⟩ := hstep
      exact task_fields_inv_step _ op ih

/-- Witness for C3 (amended): the freshly leased task row is IN_PROGRESS
with all three holder fields set. -/
theorem task_fields_inprogress_invariant_witness :
    (leaseTaskUpdate "w" 5 newTaskEx).worker_id ≠ none ∧
    (leaseTaskUpdate "w" 5 newTaskEx).taken_at ≠ none ∧
    (leaseTaskUpdate "w" 5 newTaskEx).last_heartbeat ≠ none := by
  exact task_fields_inprogress_invariant [newTaskEx]
    (applyTaskOp [newTaskEx] (.lease "w" 5)) (by unfold InitTasks; decide)
    (Relation.ReflTransGen.tail Relation.ReflTransGen.refl ⟨.lease "w" 5, rfl⟩)
    (leaseTaskUpdate "w" 5 newTaskEx) (by decide) (by decide)

/-- Counterexample to C4: the error message written by `return_stuck_tasks`
for a stuck task with exhausted retries is the Russian
`'Превышено максимальное количество попыток (stuck timeout)'`, not the
claimed `"stuck timeout exceeded"`. -/
theorem stuck_message_counterexample :
    (return_stuck_tasks 3600 3 7200 [stuckTaskEx]).map Task.error_message =
      [some stuckMessage] ∧
    stuckMessage ≠ "stuck timeout exceeded" := by
  constructor
  · decide
  · decide

/-- Claim C4, amended: `return_stuck_tasks` maps every IN_PROGRESS task
whose `last_heartbeat` is older than the stuck timeout to NEW with
`retry_count` incremented by exactly one when `retry_count` is below the
retry limit, and otherwise to ERROR with the message
`'Превышено максимальное количество попыток (stuck timeout)'` (in both
cases clearing `worker_id` and `taken_at`); every other task row is left
unchanged. -/
theorem return_stuck_tasks_mapping (stuckT maxR now i : Nat)
    (tasks : List Task) (t : Task) (hget : tasks.get? i = some t) :
    (∀ lh : Nat, t.status = TaskStatus.inProgress → t.last_heartbeat = some lh →
      lh + stuckT < now → t.retry_count < maxR →
      (return_stuck_tasks stuckT maxR now tasks).get? i =
        some { t with status := .new, worker_id := none, taken_at := none,
                      retry_count := t.retry_count + 1 }) ∧
    (∀ lh : Nat, t.status = TaskStatus.inProgress → t.last_heartbeat = some lh →
      lh + stuckT < now → maxR ≤ t.retry_count →
      (return_stuck_tasks stuckT maxR now tasks).get? i =
        some { t with status := .error, worker_id := none, taken_at := none,
                      error_message := some stuckMessage }) ∧
    (isStuck stuckT now t = false →
      (return_stuck_tasks stuckT maxR now tasks).get? i = some t) := by
  have hout : (return_stuck_tasks stuckT maxR now tasks).get? i =
      some (stuckPass2 stuckT maxR now (stuckPass1 stuckT maxR now t)) := by
    unfold return_stuck_tasks
    rw [List.map_map, List.get?_map, hget]
    rfl
  have hstuck_of : ∀ lh : Nat, t.status = TaskStatus.inProgress →
      t.last_heartbeat = some lh → lh + stuckT < now →
      isStuck stuckT now t = true := by
    intro lh hs hlh hlt
    unfold isStuck
    rw [hs, hlh]
    simp [hlt]
  refine ⟨?_, ?_, ?_⟩
  · intro lh hs hlh hlt hretry
    rw [hout]
    have h1 : stuckPass1 stuckT maxR now t =
        { t with status := .new, worker_id := none, taken_at := none,
                 retry_count := t.retry_count + 1 } := by
      unfold stuckPass1
      rw [hstuck_of lh hs hlh hlt]
      simp [hretry]
    rw [h1]
    have hfalse : isStuck stuckT now
        { t with status := .new, worker_id := none, taken_at := none,
                 retry_count := t.retry_count + 1 } = false := by
      unfold isStuck
      simp
    have h2 : stuckPass2 stuckT maxR now
        { t with status := .new, worker_id := none, taken_at := none,
                 retry_count := t.retry_count + 1 } =
        { t with status := .new, worker_id := none, taken_at := none,
                 retry_count := t.retry_count + 1 } := by
      unfold stuckPass2
      rw [hfalse]
      simp
    rw [h2]
  · intro lh hs hlh hlt hretry
    rw [hout]
    have h1 : stuckPass1 stuckT maxR now t = t := by
      unfold stuckPass1
      rw [if_neg]
      intro hc
      rw [Bool.and_eq_true] at hc
      exact absurd (of_decide_eq_true hc.2) (Nat.not_lt.mpr hretry)
    rw [h1]
    unfold stuckPass2
    rw [hstuck_of lh hs hlh hlt]
    simp [hretry]
  · intro hns
    rw [hout]
    have h1 : stuckPass1 stuckT maxR now t = t := by
      unfold stuckPass1
      rw [hns]
      simp
    rw [h1]
    unfold stuckPass2
    rw [hns]
    simp

/-- Witness for C4 (amended): a stuck task with retry budget left returns
to NEW with the counter incremented; one with the budget exhausted is
marked as an error with the stuck message. -/
theorem return_stuck_tasks_mapping_witness :
    ((return_stuck_tasks 3600 3 7200 [stuckTaskEx0]).get? 0 =
      some { stuckTaskEx0 with status := .new, worker_id := none, taken_at := none,
                               retry_count := stuckTaskEx0.retry_count + 1 }) ∧
    ((return_stuck_tasks 3600 3 7200 [stuckTaskEx]).get? 0 =
      some { stuckTaskEx with status := .error, worker_id := none, taken_at := none,
                              error_message := some stuckMessage }) := by
  constructor
  · exact (return_stuck_tasks_mapping 3600 3 7200 0 [stuckTaskEx0] stuckTaskEx0
      (by decide)).1 0 (by decide) (by decide) (by decide) (by decide)
  · exact (return_stuck_tasks_mapping 3600 3 7200 0 [stuckTaskEx] stuckTaskEx
      (by decide)).2.1 0 (by decide) (by decide) (by decide) (by decide)

/-- The number of successful proxy rotations performed by the catalog-entry
loop never exceeds the remaining rotation budget. -/
theorem catalogEntryLoop_rotations_le :
    ∀ (iters : List EntryIter) (attempts : Nat),
      (catalogEntryLoop iters attempts).2 + attempts ≤
        CATALOG_PROXY_ROTATION_LIMIT ∨ (catalogEntryLoop iters attempts).2 = 0 := by
  intro iters
  induction iters with
  | nil => intro attempts; right; rfl
  | cons it rest ih =>
      intro attempts
      unfold catalogEntryLoop
      split_ifs with h1 h2 h3 h4 h5
      · right; rfl
      · right; rfl
      · right; rfl
      · left
        simp only
        rcases ih (attempts + 1) with hle | hzero
        · simp only [CATALOG_PROXY_ROTATION_LIMIT] at h4 hle ⊢
          omega
        · rw [hzero]
          simp only [CATALOG_PROXY_ROTATION_LIMIT] at h4 ⊢
          omega
      · right; rfl
      · right; rfl

/-- Claim C5: at catalog entry each 403/407 page state with a rotation
still in budget causes a proxy rotation (counted) and a retried navigation;
the number of rotations from a fresh entry is bounded by
`CATALOG_PROXY_ROTATION_LIMIT = 5`; the sixth consecutive 403/407 exceeds
the limit and ends the loop with the task returned to the queue without a
retry increment — and `return_task_to_queue` with `increment_retry = false`
indeed leaves every `retry_count` unchanged. -/
theorem catalog_rotation_bounded :
    CATALOG_PROXY_ROTATION_LIMIT = 5 ∧
    (∀ iters : List EntryIter,
      (catalogEntryLoop iters 0).2 ≤ CATALOG_PROXY_ROTATION_LIMIT) ∧
    (∀ (it : EntryIter) (rest : List EntryIter) (attempts : Nat),
      it.gotoOk = true →
      (it.state = PageState.block403 ∨ it.state = PageState.auth407) →
      it.rotateOk = true → attempts + 1 ≤ CATALOG_PROXY_ROTATION_LIMIT →
      catalogEntryLoop (it :: rest) attempts =
        ((catalogEntryLoop rest (attempts + 1)).1,
         (catalogEntryLoop rest (attempts + 1)).2 + 1)) ∧
    (∀ rest : List EntryIter,
      catalogEntryLoop (List.replicate 6 blockedIter ++ rest) 0 =
        (some (EntryOutcome.returnedNoRetry "Proxy blocked (rotation limit)"), 5)) ∧
    (∀ (tasks : List Task) (tid : Nat) (msg : String),
      (return_task_to_queue tasks tid msg false).map Task.retry_count =
        tasks.map Task.retry_count) := by
  have hstep : ∀ (it : EntryIter) (rest : List EntryIter) (attempts : Nat),
      it.gotoOk = true →
      (it.state = PageState.block403 ∨ it.state = PageState.auth407) →
      it.rotateOk = true → attempts + 1 ≤ CATALOG_PROXY_ROTATION_LIMIT →
      catalogEntryLoop (it :: rest) attempts =
        ((catalogEntryLoop rest (attempts + 1)).1,
         (catalogEntryLoop rest (attempts + 1)).2 + 1) := by
    intro it rest attempts hgoto hstate hrot hlim
    have hgate : captchaGate it = true := by
      unfold captchaGate
      rcases hstate with hs | hs <;> rw [hs] <;> rfl
    rw [catalogEntryLoop.eq_def]
    simp only [hgoto, hgate, Bool.not_true, Bool.false_eq_true, if_false]
    rw [if_pos hstate, if_neg (by omega), if_pos hrot]
  refine ⟨rfl, ?_, hstep, ?_, ?_⟩
  · intro iters
    rcases catalogEntryLoop_rotations_le iters 0 with hle | hzero
    · omega
    · rw [hzero]; exact Nat.zero_le _
  · intro rest
    have hb1 : blockedIter.gotoOk = true := rfl
    have hb2 : blockedIter.state = PageState.block403 ∨
        blockedIter.state = PageState.auth407 := Or.inl rfl
    have hb3 : blockedIter.rotateOk = true := rfl
    have hrep : List.replicate 6 blockedIter ++ rest =
        blockedIter :: (blockedIter :: (blockedIter :: (blockedIter ::
          (blockedIter :: (blockedIter :: rest))))) := rfl
    rw [hrep]
    rw [hstep _ _ 0 hb1 hb2 hb3 (by decide)]
    rw [hstep _ _ 1 hb1 hb2 hb3 (by decide)]
    rw [hstep _ _ 2 hb1 hb2 hb3 (by decide)]
    rw [hstep _ _ 3 hb1 hb2 hb3 (by decide)]
    rw [hstep _ _ 4 hb1 hb2 hb3 (by decide)]
    have hlast : catalogEntryLoop (blockedIter :: rest) 5 =
        (some (EntryOutcome.returnedNoRetry "Proxy blocked (rotation limit)"), 0) := by
      unfold catalogEntryLoop
      rw [hb1]
      have hgate : captchaGate blockedIter = true := rfl
      rw [hgate]
      simp only [Bool.not_true, Bool.false_eq_true, if_false]
      rw [if_pos hb2, if_pos (by decide)]
    rw [hlast]
  · intro tasks tid msg
    unfold return_task_to_queue
    rw [List.map_map]
    apply List.map_congr_left
    intro t _
    simp only [Function.comp_apply]
    by_cases hc : t.id = tid
    · rw [if_pos hc]
      simp
    · rw [if_neg hc]

/-- Witness for C5: a single 403 iteration with a proxy available rotates
once and leaves the loop undecided on the empty remainder of the trace. -/
theorem catalog_rotation_bounded_witness :
    catalogEntryLoop [blockedIter] 0 =
      ((catalogEntryLoop ([] : List EntryIter) 1).1,
       (catalogEntryLoop ([] : List EntryIter) 1).2 + 1) := by
  exact catalog_rotation_bounded.2.2.1 blockedIter [] 0 (by decide) (Or.inl (by decide))
    (by decide) (by decide)

/-! Dictionary lemmas: `dictInsert`/`dictGet` realise Python dict semantics. -/

theorem dictGet_dictInsert_self {α : Type} (m : List (Nat × α)) (k : Nat) (v : α) :
    dictGet (dictInsert m k v) k = some v := by
  induction m with
  | nil => simp [dictInsert, dictGet, List.find?]
  | cons kv rest ih =>
      obtain ⟨k', v'⟩ := kv
      by_cases hc : k' = k
      · simp [dictInsert, if_pos hc, dictGet, List.find?]
      · simp only [dictInsert, if_neg hc]
        simpa [dictGet, List.find?, hc] using ih

theorem dictGet_dictInsert_ne {α : Type} (m : List (Nat × α)) (k : Nat) (v : α)
    (k' : Nat) (h : k' ≠ k) : dictGet (dictInsert m k v) k' = dictGet m k' := by
  have hkk : (decide (k = k') : Bool) = false := decide_eq_false (fun hc => h hc.symm)
  induction m with
  | nil => simp [dictInsert, dictGet, List.find?, hkk]
  | cons kv rest ih =>
      obtain ⟨a, b⟩ := kv
      by_cases hc : a = k
      · subst hc
        simp [dictInsert, dictGet, List.find?, hkk]
      · simp only [dictInsert, if_neg hc]
        by_cases ha : a = k'
        · subst ha
          simp [dictGet, List.find?]
        · have haa : (decide (a = k') : Bool) = false := decide_eq_false ha
          simp only [dictGet, List.find?, haa] at ih ⊢
          exact ih

theorem dictInsert_mem {α : Type} {m : List (Nat × α)} {k : Nat} {v : α}
    {kv : Nat × α} (h : kv ∈ dictInsert m k v) : kv = (k, v) ∨ kv ∈ m := by
  induction m with
  | nil => simpa [dictInsert] using h
  | cons hd rest ih =>
      obtain ⟨a, b⟩ := hd
      by_cases hc : a = k
      · rw [dictInsert, if_pos hc] at h
        rcases List.mem_cons.mp h with h1 | h2
        · exact Or.inl h1
        · exact Or.inr (List.mem_cons_of_mem _ h2)
      · rw [dictInsert, if_neg hc] at h
        rcases List.mem_cons.mp h with h1 | h2
        · exact Or.inr (h1 ▸ List.mem_cons_self _ _)
        · rcases ih h2 with h3 | h4
          · exact Or.inl h3
          · exact Or.inr (List.mem_cons_of_mem _ h4)

theorem dictInsert_keys {α : Type} (m : List (Nat × α)) (k : Nat) (v : α) :
    (dictInsert m k v).map Prod.fst =
      if k ∈ m.map Prod.fst then m.map Prod.fst else m.map Prod.fst ++ [k] := by
  induction m with
  | nil => simp [dictInsert]
  | cons hd rest ih =>
      obtain ⟨a, b⟩ := hd
      by_cases hc : a = k
      · subst hc
        simp [dictInsert, List.mem_cons]
      · have hka : ¬ k = a := fun hc2 => hc hc2.symm
        simp only [dictInsert, if_neg hc, List.map_cons, ih]
        by_cases hk : k ∈ rest.map Prod.fst
        · simp [hk, List.mem_cons, hka]
        · simp [hk, List.mem_cons, hka]

theorem dictInsert_keys_nodup {α : Type} {m : List (Nat × α)}
    (h : (m.map Prod.fst).Nodup) (k : Nat) (v : α) :
    ((dictInsert m k v).map Prod.fst).Nodup := by
  rw [dictInsert_keys]
  by_cases hk : k ∈ m.map Prod.fst
  · rwa [if_pos hk]
  · rw [if_neg hk]
    rw [List.nodup_append]
    exact ⟨h, List.nodup_singleton k, by simpa [List.disjoint_left] using hk⟩

theorem foldl_dict_keys_nodup {α β : Type} (key : β → Nat) (val : β → α) :
    ∀ (items : List β) (m : List (Nat × α)), (m.map Prod.fst).Nodup →
      ((items.foldl (fun acc x => dictInsert acc (key x) (val x)) m).map
        Prod.fst).Nodup := by
  intro items
  induction items with
  | nil => intro m hm; exact hm
  | cons c rest ih =>
      intro m hm
      exact ih _ (dictInsert_keys_nodup hm (key c) (val c))

theorem foldl_dict_preserve {α β : Type} (key : β → Nat) (val : β → α) :
    ∀ (items : List β) (m : List (Nat × α)) (k : Nat), k ∉ items.map key →
      dictGet (items.foldl (fun acc x => dictInsert acc (key x) (val x)) m) k =
        dictGet m k := by
  intro items
  induction items with
  | nil => intro m k _; rfl
  | cons c rest ih =>
      intro m k hk
      rw [List.map_cons, List.mem_cons] at hk
      push_neg at hk
      rw [List.foldl_cons, ih _ k hk.2, dictGet_dictInsert_ne _ _ _ _ hk.1]

theorem foldl_dict_lookup {α β : Type} (key : β → Nat) (val : β → α) :
    ∀ (items : List β) (m : List (Nat × α)) (b : β), b ∈ items →
      (items.map key).Nodup →
      dictGet (items.foldl (fun acc x => dictInsert acc (key x) (val x)) m)
        (key b) = some (val b) := by
  intro items
  induction items with
  | nil => intro m b hb; exact absurd hb (List.not_mem_nil b)
  | cons c rest ih =>
      intro m b hb hnd
      rw [List.map_cons, List.nodup_cons] at hnd
      rcases List.mem_cons.mp hb with hb1 | hb2
      · subst hb1
        rw [List.foldl_cons, foldl_dict_preserve _ _ _ _ _ hnd.1,
          dictGet_dictInsert_self]
      · rw [List.foldl_cons]
        exact ih _ b hb2 hnd.2

theorem foldl_dict_mem {α β : Type} (key : β → Nat) (val : β → α) :
    ∀ (items : List β) (m : List (Nat × α)) (kv : Nat × α),
      kv ∈ items.foldl (fun acc x => dictInsert acc (key x) (val x)) m →
      kv ∈ m ∨ kv.1 ∈ items.map key := by
  intro items
  induction items with
  | nil => intro m kv h; exact Or.inl h
  | cons c rest ih =>
      intro m kv h
      rw [List.foldl_cons] at h
      rcases ih _ kv h with h1 | h2
      · rcases dictInsert_mem h1 with h3 | h4
        · subst h3
          exact Or.inr (by simp)
        · exact Or.inl h4
      · exact Or.inr (by simp [h2])

theorem foldl_skip_filter {α β : Type} (p : β → Prop) [DecidablePred p]
    (g : α → β → α) :
    ∀ (l : List β) (m : α),
      l.foldl (fun acc x => if p x then acc else g acc x) m =
        (l.filter (fun x => decide (¬ p x))).foldl g m := by
  intro l
  induction l with
  | nil => intro m; rfl
  | cons c rest ih =>
      intro m
      rw [List.foldl_cons]
      by_cases hc : p c
      · rw [if_pos hc, List.filter_cons, if_neg (by simpa using hc)]
        exact ih m
      · rw [if_neg hc, List.filter_cons, if_pos (by simpa using hc), List.foldl_cons]
        exact ih (g m c)

/-- `validate_mechanical` is the dictionary built over the truthy-id
listings. -/
theorem validate_mechanical_eq (stopwords : List Str) (listings : List Listing) :
    validate_mechanical stopwords listings =
      (listings.filter (fun i => decide (¬ i.avito_item_id = 0))).foldl
        (fun m i => dictInsert m i.avito_item_id
          (mechRow stopwords (calculate_price_threshold (listingPrices listings)) i))
        [] := by
  unfold validate_mechanical
  by_cases h : listings.isEmpty
  · rw [if_pos h]
    rw [List.isEmpty_iff] at h
    subst h
    rfl
  · rw [if_neg h]
    exact foldl_skip_filter (fun i => i.avito_item_id = 0) _ listings []

theorem validate_mechanical_keys_nodup (stopwords : List Str)
    (listings : List Listing) :
    ((validate_mechanical stopwords listings).map Prod.fst).Nodup := by
  rw [validate_mechanical_eq]
  exact foldl_dict_keys_nodup _ _ _ [] (by simp)

theorem validate_mechanical_lookup (stopwords : List Str) (listings : List Listing)
    (item : Listing) (hmem : item ∈ listings) (hid : ¬ item.avito_item_id = 0)
    (hnd : ((listings.filter (fun i => decide (¬ i.avito_item_id = 0))).map
      Listing.avito_item_id).Nodup) :
    dictGet (validate_mechanical stopwords listings) item.avito_item_id =
      some (mechRow stopwords
        (calculate_price_threshold (listingPrices listings)) item) := by
  rw [validate_mechanical_eq]
  exact foldl_dict_lookup Listing.avito_item_id _ _ [] item
    (List.mem_filter.mpr ⟨hmem, by simpa using hid⟩) hnd

/-- The source's threshold computation coincides with the claim-worded one. -/
theorem calculate_price_threshold_eq_claim (prices : List ℚ) :
    calculate_price_threshold prices = claimPriceThreshold prices := by
  unfold calculate_price_threshold claimPriceThreshold
  by_cases h : prices.isEmpty
  · rw [if_pos h, if_pos h]
  · rw [if_neg h, if_neg h]
    have hdesc : prices.mergeSort (fun a b => decide (b ≤ a)) =
        prices.insertionSort (fun a b => b ≤ a) := by
      haveI h1 : IsTotal ℚ (fun a b => b ≤ a) := ⟨fun a b => le_total b a⟩
      haveI h2 : IsTrans ℚ (fun a b => b ≤ a) := ⟨fun _ _ _ x y => le_trans y x⟩
      haveI h3 : IsAntisymm ℚ (fun a b => b ≤ a) := ⟨fun _ _ x y => le_antisymm y x⟩
      exact List.mergeSort_eq_insertionSort _ _
    have hasc : ∀ l : List ℚ, l.mergeSort (fun a b => decide (a ≤ b)) =
        l.insertionSort (fun a b => a ≤ b) := by
      intro l
      exact List.mergeSort_eq_insertionSort _ _
    have hfilter : ∀ (med : ℚ) (l : List ℚ),
        l.filter (fun p => decide (¬ 3 * med < p)) =
          l.filter (fun p => decide (p ≤ med * 3)) := by
      intro med l
      apply List.filter_congr
      intro p _
      rw [decide_eq_decide, not_lt, mul_comm]
    have hhalf : ∀ x : ℚ, x * (1/2) = x / 2 := fun x => mul_one_div x 2
    simp only []
    rw [hdesc, hasc, hfilter, hhalf]

/-- A threshold computed from positive prices is positive. -/
theorem calculate_price_threshold_pos (prices : List ℚ)
    (hpos : ∀ p ∈ prices, 0 < p) (thr : ℚ)
    (h : calculate_price_threshold prices = some thr) : 0 < thr := by
  by_cases hne : prices.isEmpty
  · unfold calculate_price_threshold at h
    rw [if_pos hne] at h
    exact absurd h (by simp)
  · have hpnil : prices ≠ [] := fun hnil => hne (by simp [hnil])
    have hplen : 0 < prices.length := List.length_pos.mpr hpnil
    unfold calculate_price_threshold at h
    rw [if_neg hne] at h
    simp only [] at h
    rw [Option.some.injEq] at h
    rw [← h]
    have hsorted_mem : ∀ p ∈ prices.insertionSort (fun a b => b ≤ a), 0 < p := by
      intro p hp
      exact hpos p ((List.mem_insertionSort _).mp hp)
    have htop_mem : ∀ p ∈ (prices.insertionSort (fun a b => b ≤ a)).take
        (max 1 (prices.length / 5)), 0 < p := by
      intro p hp
      exact hsorted_mem p (List.take_subset _ _ hp)
    have htop_len : 0 < ((prices.insertionSort (fun a b => b ≤ a)).take
        (max 1 (prices.length / 5))).length := by
      rw [List.length_take, List.length_insertionSort]
      exact Nat.lt_min.mpr ⟨by omega, hplen⟩
    have hstop_mem : ∀ p ∈ ((prices.insertionSort (fun a b => b ≤ a)).take
        (max 1 (prices.length / 5))).insertionSort (fun a b => a ≤ b), 0 < p := by
      intro p hp
      exact htop_mem p ((List.mem_insertionSort _).mp hp)
    have hstop_len : 0 < (((prices.insertionSort (fun a b => b ≤ a)).take
        (max 1 (prices.length / 5))).insertionSort (fun a b => a ≤ b)).length := by
      rw [List.length_insertionSort]
      exact htop_len
    have hmed_mem : (((prices.insertionSort (fun a b => b ≤ a)).take
          (max 1 (prices.length / 5))).insertionSort (fun a b => a ≤ b)).getD
        ((((prices.insertionSort (fun a b => b ≤ a)).take
          (max 1 (prices.length / 5))).insertionSort (fun a b => a ≤ b)).length / 2) 0 ∈
        ((prices.insertionSort (fun a b => b ≤ a)).take
          (max 1 (prices.length / 5))).insertionSort (fun a b => a ≤ b) := by
      rw [List.getD_eq_getElem _ _ (Nat.div_lt_self hstop_len (by omega))]
      exact List.getElem_mem _
    have hmed_pos := hstop_mem _ hmed_mem
    set med := (((prices.insertionSort (fun a b => b ≤ a)).take
        (max 1 (prices.length / 5))).insertionSort (fun a b => a ≤ b)).getD
      ((((prices.insertionSort (fun a b => b ≤ a)).take
        (max 1 (prices.length / 5))).insertionSort (fun a b => a ≤ b)).length / 2) 0
      with hmeddef
    set kept := ((prices.insertionSort (fun a b => b ≤ a)).take
        (max 1 (prices.length / 5))).filter (fun p => decide (p ≤ med * 3))
      with hkeptdef
    by_cases hke : kept.isEmpty
    · rw [if_pos hke]
      simp only [List.sum_singleton, List.length_singleton, Nat.cast_one]
      rw [div_one]
      exact mul_pos hmed_pos (by norm_num)
    · rw [if_neg hke]
      have hknil : kept ≠ [] := fun hnil => hke (by simp [hnil])
      have hkmem : ∀ p ∈ kept, 0 < p := by
        intro p hp
        rw [hkeptdef] at hp
        exact htop_mem p (List.mem_filter.mp hp).1
      have hsum : 0 < kept.sum := List.sum_pos kept hkmem hknil
      have hlen : (0 : ℚ) < (kept.length : ℚ) := by
        exact_mod_cast List.length_pos.mpr hknil
      exact mul_pos (div_pos hsum hlen) (by norm_num)

/-- Claim C6: the mechanical price threshold is null for an empty price
list; for any price list it equals 0.5 × the mean of the top-20% slice
(the `max(1, ⌊0.2·n⌋)` largest prices) after dropping prices above 3 × the
slice median, falling back to the median alone when all are dropped (stated
as agreement with `claimPriceThreshold`, an independent rendering of the
claim's wording); and a listing with positive price below the threshold
that was not rejected for stop-words is rejected with reason `'price'`. -/
theorem price_threshold_correct :
    calculate_price_threshold [] = none ∧
    (∀ prices : List ℚ, calculate_price_threshold prices = claimPriceThreshold prices) ∧
    (∀ (stopwords : List Str) (listings : List Listing) (item : Listing) (thr : ℚ),
      item ∈ listings → ¬ item.avito_item_id = 0 →
      ((listings.filter (fun i => decide (¬ i.avito_item_id = 0))).map
        Listing.avito_item_id).Nodup →
      (∀ p ∈ listingPrices listings, 0 < p) →
      calculate_price_threshold (listingPrices listings) = some thr →
      check_stopwords stopwords item.title = [] →
      check_stopwords stopwords item.description = [] →
      check_stopwords stopwords item.seller = [] →
      0 < item.price → item.price < thr →
      dictGet (validate_mechanical stopwords listings) item.avito_item_id =
        some { passed := false, rejection_reason := some "price" }) := by
  refine ⟨rfl, calculate_price_threshold_eq_claim, ?_⟩
  intro stopwords listings item thr hmem hid hnd hpos hthr ht hd hs hpp hlt
  have hthr_pos : 0 < thr := calculate_price_threshold_pos _ hpos thr hthr
  have hrow : mechRow stopwords (calculate_price_threshold (listingPrices listings))
      item = { passed := false, rejection_reason := some "price" } := by
    unfold mechRow
    rw [hthr, ht, hd, hs]
    have hnotle : ¬ thr ≤ item.price := not_le.mpr hlt
    have hpv : priceValid (some thr) item.price = false := by
      unfold priceValid
      show (if thr ≠ 0 ∧ 0 < item.price then decide (thr ≤ item.price) else true) =
        false
      rw [if_pos ⟨ne_of_gt hthr_pos, hpp⟩]
      exact decide_eq_false hnotle
    simp [hpv]
  rw [validate_mechanical_lookup stopwords listings item hmem hid hnd, hrow]

/-- Witness for C6: with prices `[1, 4]` the top-20% slice is `[4]`, the
threshold is 2, and the price-1 listing is rejected with reason `'price'`. -/
theorem price_threshold_correct_witness :
    calculate_price_threshold (listingPrices [cheapListing, richListing]) = some 2 ∧
    (0 : ℚ) < 1 ∧ (1 : ℚ) < 2 ∧
    dictGet (validate_mechanical [] [cheapListing, richListing])
        cheapListing.avito_item_id =
      some { passed := false, rejection_reason := some "price" } := by
  have hlp : listingPrices [cheapListing, richListing] = [1, 4] := by decide
  have hthr : calculate_price_threshold (listingPrices [cheapListing, richListing]) =
      some 2 := by
    rw [hlp]
    norm_num [calculate_price_threshold, List.insertionSort, List.orderedInsert]
  refine ⟨hthr, by norm_num, by norm_num, ?_⟩
  exact price_threshold_correct.2.2 [] [cheapListing, richListing] cheapListing 2
    (by decide) (by decide) (by decide) (by rw [hlp]; decide) hthr
    (by decide) (by decide) (by decide) (by decide) (by decide)

/-- Membership in `check_stopwords` output characterised per stop-word. -/
theorem check_stopwords_mem (stopwords : List Str) (sw text : Str)
    (hsw : sw ∈ stopwords) :
    sw ∈ check_stopwords stopwords text ↔
      text ≠ [] ∧ stopwordHit sw text = true := by
  unfold check_stopwords
  by_cases he : text.isEmpty
  · rw [if_pos he]
    have : text = [] := by simpa [List.isEmpty_iff] using he
    simp [this]
  · rw [if_neg he]
    have hne : text ≠ [] := fun h => he (by simp [h])
    rw [List.mem_filter]
    simp [hsw, hne]

/-- A non-empty `check_stopwords` output means some configured stop-word
hits the text. -/
theorem check_stopwords_ne_nil (stopwords : List Str) (text : Str) :
    check_stopwords stopwords text ≠ [] ↔
      ∃ sw ∈ stopwords, text ≠ [] ∧ stopwordHit sw text = true := by
  unfold check_stopwords
  by_cases he : text.isEmpty
  · rw [if_pos he]
    have : text = [] := by simpa [List.isEmpty_iff] using he
    simp [this]
  · rw [if_neg he]
    have hne : text ≠ [] := fun h => he (by simp [h])
    constructor
    · intro h
      obtain ⟨sw, hmem⟩ := List.exists_mem_of_ne_nil _ h
      have := List.mem_filter.mp hmem
      exact ⟨sw, this.1, hne, this.2⟩
    · rintro ⟨sw, hmem, _, hhit⟩ hnil
      exact absurd hhit (by simpa using List.filter_eq_nil_iff.mp hnil sw hmem)

/-- `mechRow` reports `'stopwords'` exactly when some stop-word list is
non-empty. -/
theorem mechRow_reason_stopwords (stopwords : List Str) (thr : Option ℚ)
    (item : Listing) :
    (mechRow stopwords thr item).rejection_reason = some "stopwords" ↔
      ¬ (check_stopwords stopwords item.title ++
          check_stopwords stopwords item.description ++
          check_stopwords stopwords item.seller) = [] := by
  unfold mechRow
  simp only []
  cases hb : (check_stopwords stopwords item.title ++
      check_stopwords stopwords item.description ++
      check_stopwords stopwords item.seller).isEmpty with
  | true =>
      have hnil : (check_stopwords stopwords item.title ++
          check_stopwords stopwords item.description ++
          check_stopwords stopwords item.seller) = [] := by
        simpa [List.isEmpty_iff] using hb
      apply iff_of_false
      · cases hpv : priceValid thr item.price <;> simp [hpv]
      · intro hcon
        exact hcon hnil
  | false =>
      have hnnil : ¬ (check_stopwords stopwords item.title ++
          check_stopwords stopwords item.description ++
          check_stopwords stopwords item.seller) = [] := by
        intro hnil
        rw [hnil] at hb
        exact Bool.noConfusion hb
      rw [if_pos (show (!false) = true from rfl)]
      exact iff_of_true rfl hnnil

/-- Claim C7: a stop-word containing `-`, `/` or `.` matches exactly when it
occurs as a case-folded substring of the text; any other stop-word matches
exactly when it occurs with surrounding-space word boundaries in the
case-folded text (both stated for case-folded stop-words, which the
matching presupposes since the source lowercases only the text); and a
listing is rejected with reason `'stopwords'` iff some configured stop-word
matches its title, description or seller. -/
theorem stopword_matching_correct :
    (∀ (stopwords : List Str) (sw text : Str),
      sw ∈ stopwords → lowerStr sw = sw → hasSpecialChar sw = true →
      (sw ∈ check_stopwords stopwords text ↔
        text ≠ [] ∧ containsSub (lowerStr text) (lowerStr sw) = true)) ∧
    (∀ (stopwords : List Str) (sw text : Str),
      sw ∈ stopwords → lowerStr sw = sw → hasSpecialChar sw = false →
      (sw ∈ check_stopwords stopwords text ↔
        text ≠ [] ∧ containsSub (padded (lowerStr text)) (padded (lowerStr sw)) = true)) ∧
    (∀ (stopwords : List Str) (listings : List Listing) (item : Listing),
      item ∈ listings → ¬ item.avito_item_id = 0 →
      ((listings.filter (fun i => decide (¬ i.avito_item_id = 0))).map
        Listing.avito_item_id).Nodup →
      ((∃ r, dictGet (validate_mechanical stopwords listings) item.avito_item_id =
          some r ∧ r.rejection_reason = some "stopwords") ↔
        ∃ sw ∈ stopwords,
          (item.title ≠ [] ∧ stopwordHit sw item.title = true) ∨
          (item.description ≠ [] ∧ stopwordHit sw item.description = true) ∨
          (item.seller ≠ [] ∧ stopwordHit sw item.seller = true))) := by
  refine ⟨?_, ?_, ?_⟩
  · intro stopwords sw text hsw hlow hspec
    rw [check_stopwords_mem stopwords sw text hsw, hlow]
    unfold stopwordHit
    rw [if_pos hspec]
  · intro stopwords sw text hsw hlow hspec
    rw [check_stopwords_mem stopwords sw text hsw, hlow]
    unfold stopwordHit
    rw [if_neg (by simp [hspec])]
  · intro stopwords listings item hmem hid hnd
    rw [show (∃ r, dictGet (validate_mechanical stopwords listings)
          item.avito_item_id = some r ∧ r.rejection_reason = some "stopwords") ↔
        (mechRow stopwords (calculate_price_threshold (listingPrices listings))
          item).rejection_reason = some "stopwords" from ?_]
    · rw [mechRow_reason_stopwords]
      rw [show (¬ (check_stopwords stopwords item.title ++
            check_stopwords stopwords item.description ++
            check_stopwords stopwords item.seller) = []) ↔
          (check_stopwords stopwords item.title ≠ [] ∨
           check_stopwords stopwords item.description ≠ [] ∨
           check_stopwords stopwords item.seller ≠ []) from by
        simp [List.append_eq_nil]
        tauto]
      rw [check_stopwords_ne_nil, check_stopwords_ne_nil, check_stopwords_ne_nil]
      constructor
      · rintro (⟨sw, h1, h2, h3⟩ | ⟨sw, h1, h2, h3⟩ | ⟨sw, h1, h2, h3⟩)
        · exact ⟨sw, h1, Or.inl ⟨h2, h3⟩⟩
        · exact ⟨sw, h1, Or.inr (Or.inl ⟨h2, h3⟩)⟩
        · exact ⟨sw, h1, Or.inr (Or.inr ⟨h2, h3⟩)⟩
      · rintro ⟨sw, h1, (⟨h2, h3⟩ | ⟨h2, h3⟩ | ⟨h2, h3⟩)⟩
        · exact Or.inl ⟨sw, h1, h2, h3⟩
        · exact Or.inr (Or.inl ⟨sw, h1, h2, h3⟩)
        · exact Or.inr (Or.inr ⟨sw, h1, h2, h3⟩)
    · rw [validate_mechanical_lookup stopwords listings item hmem hid hnd]
      constructor
      · rintro ⟨r, hr, hr2⟩
        rw [Option.some.injEq] at hr
        rw [hr]
        exact hr2
      · intro hr
        exact ⟨_, rfl, hr⟩

/-- Witness for C7: the stop-word `x` (no special characters) hits the title
`"x"` as a whole word, and the listing is rejected with reason
`'stopwords'`. -/
theorem stopword_matching_correct_witness :
    (['x'] ∈ check_stopwords [['x']] ['x'] ↔
      (['x'] : Str) ≠ [] ∧
        containsSub (padded (lowerStr ['x'])) (padded (lowerStr ['x'])) = true) ∧
    (∃ r, dictGet (validate_mechanical [['x']] [stopwordListing, cleanListing])
        stopwordListing.avito_item_id = some r ∧
      r.rejection_reason = some "stopwords") := by
  constructor
  · exact stopword_matching_correct.2.1 [['x']] ['x'] ['x'] (by decide) (by decide)
      (by decide)
  · exact (stopword_matching_correct.2.2 [['x']] [stopwordListing, cleanListing]
      stopwordListing (by decide) (by decide) (by decide)).mpr
      ⟨['x'], by decide, Or.inl ⟨by decide, by decide⟩⟩

/-! The validation-and-save pipeline: shared characterisation. -/

/-- `process_validation_and_save` on a non-empty listing set, expressed with
the named helpers. -/
theorem process_validation_eq (stopwords : List Str) (apiKey : Bool)
    (listings : List Listing) (resp : AiResponse) (log : List ValRow)
    (hne : listings ≠ []) :
    process_validation_and_save stopwords apiKey listings resp log =
      if (!(mechanical_passed_ids stopwords listings).isEmpty && apiKey) = true then
        match validate_ai (aiListings stopwords listings) resp with
        | .ok aiResults =>
            (log ++ stageRows .mechanical (validate_mechanical stopwords listings)
              ++ stageRows .ai aiResults,
             listings.length, (aiResults.filter (fun kv => kv.2.passed)).length)
        | .error _ =>
            (log ++ stageRows .mechanical (validate_mechanical stopwords listings),
             listings.length, (mechanical_passed_ids stopwords listings).length)
      else
        (log ++ stageRows .mechanical (validate_mechanical stopwords listings),
         listings.length, (mechanical_passed_ids stopwords listings).length) := by
  have hie : ¬ listings.isEmpty = true := fun hc => hne (List.isEmpty_iff.mp hc)
  unfold process_validation_and_save
  rw [if_neg hie]
  rfl

theorem mech_passed_row (stopwords : List Str) (listings : List Listing) {id : Nat}
    (h : id ∈ mechanical_passed_ids stopwords listings) :
    ∃ res, (id, res) ∈ validate_mechanical stopwords listings ∧ res.passed = true := by
  unfold mechanical_passed_ids at h
  obtain ⟨kv, hkv, hid⟩ := List.mem_map.mp h
  have h2 := List.mem_filter.mp hkv
  refine ⟨kv.2, ?_, by simpa using h2.2⟩
  rw [← hid]
  simpa using h2.1

theorem mech_keys_sub (stopwords : List Str) (listings : List Listing) :
    ∀ kv ∈ validate_mechanical stopwords listings,
      kv.1 ∈ listings.map Listing.avito_item_id := by
  intro kv hkv
  rw [validate_mechanical_eq] at hkv
  rcases foldl_dict_mem _ _ _ _ kv hkv with h1 | h2
  · exact absurd h1 (List.not_mem_nil kv)
  · obtain ⟨i, hi, hieq⟩ := List.mem_map.mp h2
    exact List.mem_map.mpr ⟨i, (List.mem_filter.mp hi).1, hieq⟩

theorem ai_listings_ne_nil (stopwords : List Str) (listings : List Listing)
    (h : mechanical_passed_ids stopwords listings ≠ []) :
    aiListings stopwords listings ≠ [] := by
  obtain ⟨id, hid⟩ := List.exists_mem_of_ne_nil _ h
  have hidl : id ∈ listings.map Listing.avito_item_id := by
    have h2 := hid
    unfold mechanical_passed_ids at h2
    obtain ⟨kv, hkv, hkeq⟩ := List.mem_map.mp h2
    have := mech_keys_sub stopwords listings kv (List.mem_filter.mp hkv).1
    rwa [hkeq] at this
  obtain ⟨l, hl, hleq⟩ := List.mem_map.mp hidl
  intro hnil
  have hmem : l ∈ aiListings stopwords listings :=
    List.mem_filter.mpr ⟨hl, by simp [hleq, hid]⟩
  rw [hnil] at hmem
  exact List.not_mem_nil l hmem

theorem stageRows_mem {vt : ValType} {m : List (Nat × StageResult)} {row : ValRow}
    (h : row ∈ stageRows vt m) :
    row.validation_type = vt ∧
      ∃ kv ∈ m, row = ⟨kv.1, vt, kv.2.passed, kv.2.rejection_reason⟩ := by
  obtain ⟨kv, hkv, hkeq⟩ := List.mem_map.mp h
  exact ⟨by rw [← hkeq], kv, hkv, hkeq.symm⟩

/-- Every id keyed by a composed AI result comes from the LLM reply or from
the submitted listings. -/
theorem validate_ai_keys (listings : List Listing) (resp : AiResponse)
    (m : List (Nat × StageResult)) (h : validate_ai listings resp = .ok m) :
    ∀ kv ∈ m, kv.1 ∈ respIds resp ∨ kv.1 ∈ listings.map Listing.avito_item_id := by
  unfold validate_ai at h
  by_cases he : listings.isEmpty = true
  · rw [if_pos he] at h
    rw [Except.ok.injEq] at h
    rw [← h]
    intro kv hkv
    exact absurd hkv (List.not_mem_nil kv)
  · rw [if_neg he] at h
    cases resp with
    | timeout => exact absurd h (by simp)
    | badJson =>
        rw [Except.ok.injEq] at h
        intro kv hkv
        rw [← h] at hkv
        rcases foldl_dict_mem _ _ _ _ kv hkv with h1 | h2
        · exact absurd h1 (List.not_mem_nil kv)
        · right
          obtain ⟨i, hi, hieq⟩ := List.mem_map.mp h2
          exact List.mem_map.mpr ⟨i, (List.mem_filter.mp hi).1, hieq⟩
    | ok passed_ids rejected =>
        rw [Except.ok.injEq] at h
        intro kv hkv
        rw [← h] at hkv
        rw [foldl_skip_filter (fun pr => pr.1 = 0) _ rejected] at hkv
        left
        rcases foldl_dict_mem Prod.fst _ _ _ kv hkv with h1 | h2
        · rcases foldl_dict_mem (fun pid => pid) _ passed_ids _ kv h1 with h3 | h4
          · exact absurd h3 (List.not_mem_nil kv)
          · unfold respIds
            rw [List.mem_append]
            left
            simpa using h4
        · unfold respIds
          rw [List.mem_append]
          right
          exact h2

/-- With distinct keys, filtering an association list by a present key
yields exactly that binding. -/
theorem dict_filter_key {α : Type} (m : List (Nat × α))
    (hnd : (m.map Prod.fst).Nodup) (k : Nat) (v : α) (hmem : (k, v) ∈ m) :
    m.filter (fun kv => decide (kv.1 = k)) = [(k, v)] := by
  induction m with
  | nil => cases hmem
  | cons hd rest ih =>
      rw [List.map_cons, List.nodup_cons] at hnd
      rcases List.mem_cons.mp hmem with h1 | h2
      · rw [← h1]
        rw [← h1] at hnd
        rw [List.filter_cons, if_pos (by simp)]
        have hrest : rest.filter (fun kv => decide (kv.1 = k)) = [] := by
          rw [List.filter_eq_nil_iff]
          intro kv hkv
          simp only [decide_eq_true_eq]
          intro hkeq
          exact hnd.1 (List.mem_map.mpr ⟨kv, hkv, hkeq⟩)
        rw [hrest]
      · have hk : k ∈ rest.map Prod.fst := List.mem_map.mpr ⟨(k, v), h2, rfl⟩
        have hne : ¬ hd.1 = k := fun hc => hnd.1 (hc ▸ hk)
        rw [List.filter_cons, if_neg (by simpa using hne)]
        exact ih hnd.2 h2

/-- The latest MECHANICAL row after this run's writes is this run's
mechanical row. -/
theorem latest_mech_passed_append (log : List ValRow)
    (mech aiRes : List (Nat × StageResult)) (id : Nat) (res : StageResult)
    (hnd : (mech.map Prod.fst).Nodup) (hmem : (id, res) ∈ mech) :
    latest_mech_passed
      (log ++ stageRows .mechanical mech ++ stageRows .ai aiRes) id =
      some res.passed := by
  unfold latest_mech_passed
  rw [List.filter_append, List.filter_append]
  have hai : (stageRows .ai aiRes).filter (fun r =>
      decide (r.avito_item_id = id) &&
        decide (r.validation_type = ValType.mechanical)) = [] := by
    rw [List.filter_eq_nil_iff]
    intro r hr
    have := (stageRows_mem hr).1
    simp [this]
  have hmechf : ∀ kv : Nat × StageResult,
      ((fun r => decide (r.avito_item_id = id) &&
          decide (r.validation_type = ValType.mechanical)) ∘
        (fun kv : Nat × StageResult =>
          ({ avito_item_id := kv.1, validation_type := ValType.mechanical,
             passed := kv.2.passed,
             rejection_reason := kv.2.rejection_reason } : ValRow))) kv =
        decide (kv.1 = id) := by
    intro kv
    simp [Function.comp]
  have hmech : (stageRows ValType.mechanical mech).filter (fun r =>
      decide (r.avito_item_id = id) &&
        decide (r.validation_type = ValType.mechanical)) =
      [⟨id, ValType.mechanical, res.passed, res.rejection_reason⟩] := by
    unfold stageRows
    rw [List.filter_map]
    rw [List.filter_congr (fun kv _ => hmechf kv)]
    rw [dict_filter_key mech hnd id res hmem]
    rfl
  rw [hai, hmech, List.append_nil, List.getLast?_concat]
  rfl

/-- Counterexample to C8: with one mechanically-passing listing and an LLM
request that times out, `validate_ai` does raise the timeout, but
`process_validation_and_save` catches every exception from it, so the task
is completed with `'success'` using the mechanical results alone instead of
being returned to the queue. -/
theorem llm_timeout_counterexample :
    validate_ai [cleanListing] AiResponse.timeout = Except.error AiFailure.timeout ∧
    task_outcome_after_validation [] true [cleanListing] AiResponse.timeout [] =
      TaskOutcome.completed "success" 1 1 ∧
    task_outcome_after_validation [] true [cleanListing] AiResponse.timeout [] ≠
      TaskOutcome.returnedToQueue true ∧
    task_outcome_after_validation [] true [cleanListing] AiResponse.timeout [] ≠
      TaskOutcome.returnedToQueue false := by
  refine ⟨rfl, by decide, by decide, by decide⟩

/-- Claim C8, amended: on an LLM request timeout `validate_ai` itself
propagates the error (`Except.error`), but its caller
`process_validation_and_save` catches every exception from the AI stage, so
the task is not returned to the queue: the pipeline returns the mechanical
pass count, appends no AI rows, and the worker completes the task. -/
theorem llm_timeout_amended (stopwords : List Str) (listings : List Listing)
    (log : List ValRow) (hne : listings ≠ []) :
    validate_ai listings AiResponse.timeout = Except.error AiFailure.timeout ∧
    ∀ apiKey : Bool,
      process_validation_and_save stopwords apiKey listings AiResponse.timeout log =
        (log ++ stageRows .mechanical (validate_mechanical stopwords listings),
         listings.length, (mechanical_passed_ids stopwords listings).length) ∧
      task_outcome_after_validation stopwords apiKey listings AiResponse.timeout
          log =
        TaskOutcome.completed "success" listings.length
          (mechanical_passed_ids stopwords listings).length := by
  have hie : ¬ listings.isEmpty = true := fun hc => hne (List.isEmpty_iff.mp hc)
  have hval : validate_ai listings AiResponse.timeout =
      Except.error AiFailure.timeout := by
    unfold validate_ai
    rw [if_neg hie]
  refine ⟨hval, ?_⟩
  intro apiKey
  have hproc : process_validation_and_save stopwords apiKey listings
      AiResponse.timeout log =
      (log ++ stageRows .mechanical (validate_mechanical stopwords listings),
       listings.length, (mechanical_passed_ids stopwords listings).length) := by
    rw [process_validation_eq stopwords apiKey listings AiResponse.timeout log hne]
    by_cases hcond : (!(mechanical_passed_ids stopwords listings).isEmpty &&
        apiKey) = true
    · rw [if_pos hcond]
      have hpne : mechanical_passed_ids stopwords listings ≠ [] := by
        intro hnil
        rw [hnil] at hcond
        simp at hcond
      have hane : ¬ (aiListings stopwords listings).isEmpty = true := fun hc =>
        ai_listings_ne_nil stopwords listings hpne (List.isEmpty_iff.mp hc)
      have hai : validate_ai (aiListings stopwords listings) AiResponse.timeout =
          Except.error AiFailure.timeout := by
        unfold validate_ai
        rw [if_neg hane]
      rw [hai]
    · rw [if_neg hcond]
  refine ⟨hproc, ?_⟩
  unfold task_outcome_after_validation
  rw [hproc]
  simp only []
  have : listings.length ≠ 0 := fun hc => hne (List.length_eq_zero.mp hc)
  rw [if_neg this]

/-- Witness for C8 (amended): the concrete timeout run completes the task
with the mechanical count. -/
theorem llm_timeout_amended_witness :
    validate_ai [cleanListing] AiResponse.timeout = Except.error AiFailure.timeout ∧
    process_validation_and_save [] true [cleanListing] AiResponse.timeout [] =
      ([] ++ stageRows .mechanical (validate_mechanical [] [cleanListing]),
       [cleanListing].length, (mechanical_passed_ids [] [cleanListing]).length) ∧
    task_outcome_after_validation [] true [cleanListing] AiResponse.timeout [] =
      TaskOutcome.completed "success" [cleanListing].length
        (mechanical_passed_ids [] [cleanListing]).length := by
  have h := llm_timeout_amended [] [cleanListing] [] (by decide)
  exact ⟨h.1, (h.2 true).1, (h.2 true).2⟩

/-- Counterexample to C9: the LLM reply may name ids outside the submitted
mechanically-passed subset; here it names id 1, whose latest MECHANICAL
result is `passed = false`, yet an AI row for id 1 is recorded. -/
theorem ai_ordering_counterexample :
    (process_validation_and_save [['x']] true [stopwordListing, cleanListing]
        (AiResponse.ok [1] []) []).1 =
      [⟨1, .mechanical, false, some "stopwords"⟩,
       ⟨2, .mechanical, true, none⟩,
       ⟨1, .ai, true, none⟩] ∧
    latest_mech_passed (process_validation_and_save [['x']] true
        [stopwordListing, cleanListing] (AiResponse.ok [1] []) []).1 1 =
      some false := by
  refine ⟨by decide, by decide⟩

/-- Claim C9, amended: whenever every id mentioned by the LLM reply belongs
to the mechanically-passed ids actually submitted to the AI stage, every AI
row recorded by `process_validation_and_save` is for a card whose latest
MECHANICAL row in the resulting log has `passed = true`.  (Without that
premise the invariant fails: the reply can name a mechanically-failed card,
as the counterexample shows.) -/
theorem ai_ordering_amended (stopwords : List Str) (listings : List Listing)
    (resp : AiResponse) (apiKey : Bool) (log : List ValRow)
    (hresp : ∀ i ∈ respIds resp, i ∈ mechanical_passed_ids stopwords listings) :
    ∀ row ∈ (process_validation_and_save stopwords apiKey listings resp
        log).1.drop log.length,
      row.validation_type = ValType.ai →
      latest_mech_passed
        (process_validation_and_save stopwords apiKey listings resp log).1
        row.avito_item_id = some true := by
  by_cases hne : listings = []
  · subst hne
    intro row hrow
    unfold process_validation_and_save at hrow
    have htrue : ([] : List Listing).isEmpty = true := rfl
    rw [if_pos htrue] at hrow
    simp only [] at hrow
    rw [List.drop_length] at hrow
    exact absurd hrow (List.not_mem_nil row)
  · rw [process_validation_eq stopwords apiKey listings resp log hne]
    by_cases hcond : (!(mechanical_passed_ids stopwords listings).isEmpty &&
        apiKey) = true
    · rw [if_pos hcond]
      cases hai : validate_ai (aiListings stopwords listings) resp with
      | error e =>
          intro row hrow hty
          simp only [List.append_assoc, List.drop_left] at hrow
          have := (stageRows_mem hrow).1
          rw [hty] at this
          exact absurd this (by decide)
      | ok aiResults =>
          intro row hrow hty
          simp only [List.append_assoc, List.drop_left] at hrow
          rcases List.mem_append.mp hrow with hmechrow | hairow
          · have := (stageRows_mem hmechrow).1
            rw [hty] at this
            exact absurd this (by decide)
          · obtain ⟨_, kv, hkv, hkeq⟩ := stageRows_mem hairow
            have hkey : kv.1 ∈ mechanical_passed_ids stopwords listings := by
              rcases validate_ai_keys _ _ _ hai kv hkv with h1 | h2
              · exact hresp kv.1 h1
              · obtain ⟨i, hi, hieq⟩ := List.mem_map.mp h2
                have := List.mem_filter.mp hi
                rw [← hieq]
                exact of_decide_eq_true this.2
            obtain ⟨res, hresmem, hrespass⟩ :=
              mech_passed_row stopwords listings hkey
            have hrowid : row.avito_item_id = kv.1 := by rw [hkeq]
            rw [hrowid]
            rw [latest_mech_passed_append log _ aiResults kv.1 res
              (validate_mechanical_keys_nodup stopwords listings) hresmem]
            rw [hrespass]
    · rw [if_neg hcond]
      intro row hrow hty
      simp only [List.drop_left] at hrow
      have := (stageRows_mem hrow).1
      rw [hty] at this
      exact absurd this (by decide)

/-- Witness for C9 (amended): an LLM reply passing exactly the submitted
card 2 yields an AI row whose card's latest mechanical row passed. -/
theorem ai_ordering_amended_witness :
    latest_mech_passed (process_validation_and_save [['x']] true
        [stopwordListing, cleanListing] (AiResponse.ok [2] []) []).1 2 =
      some true := by
  exact ai_ordering_amended [['x']] [stopwordListing, cleanListing]
    (AiResponse.ok [2] []) true [] (by decide)
    ⟨2, .ai, true, none⟩ (by decide) (by decide)

end AvitoZamer
